import Mathlib

/-!
Shallow embedding of the SRS (Sender Rewriting Scheme) engine from the Go
package `srs` (file srs.go of mileusna/srs).  Strings handled by the engine
are ASCII (enforced by the address-splitter fragment modelled below), so Go
byte indexing coincides with Lean character indexing; Go byte strings are
modelled as Lean `String` and `[]byte` values as `List Nat`.
-/

set_option maxRecDepth 10000

/-- Error values of the package (the `errors.New` variables at the top of
srs.go), plus `badAddressFormat` for failures of the external
`net/mail.ParseAddress` collaborator. -/
inductive Err where
  | noUserInSRS0
  | noUserInSRS1
  | hashInvalid
  | hashTooShort
  | timestampWrongSlot
  | timestampInvalidBase32
  | noSRS
  | noAtSign
  | badAddressFormat
deriving DecidableEq, Repr

/-! ## SHA-1, HMAC-SHA1 and base64 (Go crypto/sha1, crypto/hmac,
encoding/base64 used by `SRS.hash`) -/

/-- 2^32, the word modulus of SHA-1. -/
def m32 : Nat := 4294967296

/-- Rotate a 32-bit word left by `n` bits. -/
def rotl (n x : Nat) : Nat := ((x <<< n) ||| (x >>> (32 - n))) % m32

/-- Big-endian bytes of a 32-bit word. -/
def wordBytes (w : Nat) : List Nat :=
  [(w >>> 24) % 256, (w >>> 16) % 256, (w >>> 8) % 256, w % 256]

/-- Group bytes into big-endian 32-bit words. -/
def bytesToWords : List Nat → List Nat
  | b0 :: b1 :: b2 :: b3 :: rest =>
      (((b0 * 256 + b1) * 256 + b2) * 256 + b3) :: bytesToWords rest
  | _ => []

/-- SHA-1 padding: append 0x80, zeros to 56 mod 64, and the 64-bit
big-endian bit length. -/
def sha1Pad (msg : List Nat) : List Nat :=
  let padLen := (119 - msg.length % 64) % 64
  let bits := msg.length * 8
  msg ++ [128] ++ List.replicate padLen 0 ++ wordBytes (bits / m32) ++ wordBytes (bits % m32)

/-- SHA-1 round function. -/
def sha1F (t b c d : Nat) : Nat :=
  if t < 20 then (b &&& c) ||| ((b ^^^ 4294967295) &&& d)
  else if t < 40 then b ^^^ c ^^^ d
  else if t < 60 then (b &&& c) ||| (b &&& d) ||| (c &&& d)
  else b ^^^ c ^^^ d

/-- SHA-1 round constants. -/
def sha1K (t : Nat) : Nat :=
  if t < 20 then 1518500249
  else if t < 40 then 1859775393
  else if t < 60 then 2400959708
  else 3395469782

/-- Extend the 16 block words to the 80-word message schedule. -/
def sha1Schedule (ws : List Nat) : List Nat :=
  (List.range 64).foldl (fun w _ =>
    w ++ [rotl 1 ((w.getD (w.length - 3) 0) ^^^ (w.getD (w.length - 8) 0) ^^^
                  (w.getD (w.length - 14) 0) ^^^ (w.getD (w.length - 16) 0))]) ws

/-- One SHA-1 compression step over a 16-word block. -/
def sha1Compress (h : Nat × Nat × Nat × Nat × Nat) (block : List Nat) :
    Nat × Nat × Nat × Nat × Nat :=
  let w := sha1Schedule block
  let step := fun (st : Nat × Nat × Nat × Nat × Nat) (tw : Nat × Nat) =>
    let (a, b, c, d, e) := st
    let (t, wt) := tw
    let tmp := (rotl 5 a + sha1F t b c d + e + sha1K t + wt) % m32
    (tmp, a, rotl 30 b, c, d)
  let (a, b, c, d, e) := ((List.range 80).zip w).foldl step h
  ((h.1 + a) % m32, (h.2.1 + b) % m32, (h.2.2.1 + c) % m32,
   (h.2.2.2.1 + d) % m32, (h.2.2.2.2 + e) % m32)

/-- Split a byte list into 64-byte blocks (fuel-driven loop; the fuel is the
list length, which bounds the number of blocks). -/
def chunks64 : Nat → List Nat → List (List Nat)
  | 0, _ => []
  | _ + 1, [] => []
  | f + 1, bs => bs.take 64 :: chunks64 f (bs.drop 64)

/-- SHA-1 of a byte sequence (Go crypto/sha1). -/
def sha1 (msg : List Nat) : List Nat :=
  let padded := sha1Pad msg
  let blocks := (chunks64 padded.length padded).map bytesToWords
  let h := blocks.foldl sha1Compress
    (1732584193, 4023233417, 2562383102, 271733878, 3285377520)
  wordBytes h.1 ++ wordBytes h.2.1 ++ wordBytes h.2.2.1 ++
    wordBytes h.2.2.2.1 ++ wordBytes h.2.2.2.2

/-- HMAC-SHA1 (Go crypto/hmac with crypto/sha1, block size 64). -/
def hmacSha1 (key msg : List Nat) : List Nat :=
  let k0 := if 64 < key.length then sha1 key else key
  let k := k0 ++ List.replicate (64 - k0.length) 0
  let inner := sha1 ((k.map (fun b => b ^^^ 54)) ++ msg)
  sha1 ((k.map (fun b => b ^^^ 92)) ++ inner)

/-- The standard base64 alphabet (Go encoding/base64 StdEncoding). -/
def b64Alphabet : String := "ABCDEFGHIJKLMNOPQRSTUVWXYZabcdefghijklmnopqrstuvwxyz0123456789+/"

/-- Character of the base64 alphabet at a 6-bit index. -/
def b64Char (n : Nat) : Char := b64Alphabet.data.getD n 'A'

/-- Standard base64 encoding with padding (Go encoding/base64 StdEncoding). -/
def base64Encode : List Nat → String
  | [] => ""
  | [b0] => String.mk [b64Char (b0 >>> 2), b64Char ((b0 % 4) <<< 4)] ++ "=="
  | [b0, b1] =>
      String.mk [b64Char (b0 >>> 2), b64Char (((b0 % 4) <<< 4) ||| (b1 >>> 4)),
                 b64Char ((b1 % 16) <<< 2)] ++ "="
  | b0 :: b1 :: b2 :: rest =>
      String.mk [b64Char (b0 >>> 2), b64Char (((b0 % 4) <<< 4) ||| (b1 >>> 4)),
                 b64Char (((b1 % 16) <<< 2) ||| (b2 >>> 6)), b64Char (b2 % 64)] ++
        base64Encode rest

/-! ## Time slots and the radix-32 counter (constants `timePrecision`,
`timeSlots`, `maxAge`, `base32`; functions `timestamp`, `base32Encode`,
`checkTimestamp`) -/

/-- The radix-32 alphabet of the timestamp counter (constant `base32`). -/
def base32 : String := "ABCDEFGHIJKLMNOPQRSTUVWXYZ234567"

def baseSize : Nat := 32
def timePrecision : Nat := 86400
def timeSlots : Nat := 1024
def maxAge : Nat := 21
def hashLength : Nat := 4

/-- Function `timestamp`: the count of whole days since the Unix epoch,
modulo 1024.  The Go code computes this with exact-in-this-range float64
arithmetic (`math.Mod(t/86400, 1024)` truncated to int); on natural-number
Unix times the result is the same. -/
def timestamp (now : Nat) : Nat := now / timePrecision % timeSlots

/-- Loop body of `base32Encode`; the fuel is the initial value, an upper
bound on the digit count. -/
def base32EncodeAux : Nat → Nat → String
  | 0, _ => ""
  | f + 1, x =>
      if x = 0 then ""
      else base32EncodeAux f (x / baseSize) ++ String.mk [base32.data.getD (x % baseSize) 'A']

/-- Function `base32Encode`: most-significant-digit-first radix-32 rendering,
empty string for zero. -/
def base32Encode (x : Nat) : String := base32EncodeAux x x

/-- Decoding loop of `checkTimestamp`: case-insensitive digit lookup by
`strings.IndexRune(base32, unicode.ToUpper(c))`, accumulating
`then<<5 | pos`.  (Go's 64-bit int can wrap on timestamps of 13+ digits;
such pathological inputs are modelled with unbounded Nat instead.) -/
def decodeB32 : List Char → Nat → Except Err Nat
  | [], acc => .ok acc
  | c :: cs, acc =>
      match List.findIdx? (fun d => d = c.toUpper) base32.data with
      | none => .error .timestampInvalidBase32
      | some pos => decodeB32 cs ((acc <<< 5) ||| pos)

/-- The wraparound loop of `checkTimestamp` (`for now < then { now += 1024 }`);
the fuel is `then`, which bounds the iteration count. -/
def catchUpAux : Nat → Nat → Nat → Nat
  | 0, now, _ => now
  | f + 1, now, t => if now < t then catchUpAux f (now + timeSlots) t else now

def catchUp (now t : Nat) : Nat := catchUpAux t now t

/-! ## The SRS engine struct -/

/-- The `SRS` struct.  `Secret` is a byte slice; `NowFunc` is modelled by the
Unix time (seconds) it returns, fixed for the call being analysed. -/
structure SRS where
  secret : List Nat
  domain : String
  firstSeparator : String
  now : Nat

/-- Method `setDefaults`: any first separator other than "=", "+", "-" is
replaced by "=".  (`NowFunc` defaulting to `time.Now` is the `now` field.) -/
def SRS.setDefaults (s : SRS) : SRS :=
  if s.firstSeparator = "=" ∨ s.firstSeparator = "+" ∨ s.firstSeparator = "-" then s
  else { s with firstSeparator := "=" }

/-- Method `hash`: HMAC-SHA1 of the input with the secret, base64, truncated
to `hashLength` (4) characters. -/
def SRS.hash (s : SRS) (input : List Nat) : String :=
  String.mk ((base64Encode (hmacSha1 s.secret input)).data.take hashLength)

/-- Method `checkTimestamp`. -/
def SRS.checkTimestamp (s : SRS) (ts : String) : Except Err Unit :=
  match decodeB32 ts.data 0 with
  | .error e => .error e
  | .ok thenSlot =>
      let nowSlot := catchUp (timestamp s.now) thenSlot
      if nowSlot ≤ thenSlot + maxAge then .ok () else .error .timestampWrongSlot

/-! ## String helpers (Go byte-string operations; engine strings are ASCII) -/

/-- Go `s[:n]` (byte prefix; equals the character prefix on ASCII). -/
def strTake (s : String) (n : Nat) : String := String.mk (s.data.take n)

/-- Go `s[n:]`. -/
def strDrop (s : String) (n : Nat) : String := String.mk (s.data.drop n)

/-- Go `string(s[n])`, the one-byte string at index `n`. -/
def strAt (s : String) (n : Nat) : String := String.mk ((s.data.drop n).take 1)

/-- Go `strings.ToUpper` (ASCII range). -/
def upperStr (s : String) : String := String.mk (s.data.map Char.toUpper)

/-- Go `strings.ToLower` (ASCII range). -/
def lowerStr (s : String) : String := String.mk (s.data.map Char.toLower)

/-- Go `[]byte(s)` (ASCII: code points are the UTF-8 bytes). -/
def strBytes (s : String) : List Nat := s.data.map Char.toNat

/-- Go `strings.HasSuffix(s, "@")`. -/
def hasSuffixAt (s : String) : Bool :=
  match s.data.getLast? with
  | some c => c = '@'
  | none => false

/-- Split at the first occurrence of the separator character, if any. -/
def splitFirst : List Char → Char → Option (List Char × List Char)
  | [], _ => none
  | c :: cs, x =>
      if c = x then some ([], cs)
      else
        match splitFirst cs x with
        | none => none
        | some (a, b) => some (c :: a, b)

/-- Loop of `strings.SplitN` for a one-character separator: `k` is the number
of splits still allowed. -/
def splitNAux : Nat → List Char → Char → List (List Char)
  | 0, cs, _ => [cs]
  | k + 1, cs, x =>
      match splitFirst cs x with
      | none => [cs]
      | some (a, b) => a :: splitNAux k b x

/-- Go `strings.SplitN(s, sep, n)` for a one-character separator and `n ≥ 1`. -/
def splitN (s : String) (x : Char) (n : Nat) : List String :=
  (splitNAux (n - 1) s.data x).map String.mk

/-! ## The external address splitter -/

/-- Characters of the RFC 5322 atext fragment modelled for local parts
(alphanumerics and the special characters the SRS grammar and base64 tags
can produce). -/
def isFragChar (c : Char) : Bool :=
  c.isAlphanum || c = '=' || c = '+' || c = '-' || c = '_' || c = '/' ||
  c = '!' || c = '#' || c = '$' || c = '%' || c = '&' || c = '*' ||
  c = '?' || c = '^' || c = '~' || c = '|'

/-- Characters of hostname labels (letter-digit-hyphen). -/
def isHostChar (c : Char) : Bool := c.isAlphanum || c = '-'

/-- Scanner for dot-separated atoms: state `true` expects the first character
of a (nonempty) dot-free part, state `false` is inside a part.  A valid
dot-atom is nonempty, has no leading, trailing or doubled dot, and all its
non-dot characters satisfy `p`. -/
def dotAtomScan (p : Char → Bool) : Bool → List Char → Bool
  | true, [] => false
  | true, c :: cs => p c && dotAtomScan p false cs
  | false, [] => true
  | false, c :: cs => if c = '.' then dotAtomScan p true cs else p c && dotAtomScan p false cs

/-- Modelled from the spec: the external AddressSplitter capability
(`parseEmail` delegating to `net/mail.ParseAddress`, outside this
repository) — "given a full address string, returns (local-part,
domain-part) or fails if it is not a syntactically valid address or lacks an
at sign".  The model splits at the first at sign and accepts dot-atom local
parts over the atext fragment and dot-separated letter-digit-hyphen domains;
anything else fails.  The initial no-at-sign check is the code's own. -/
def parseEmail (e : String) : Except Err (String × String) :=
  if ¬ e.data.contains '@' then .error .noAtSign
  else
    match splitFirst e.data '@' with
    | none => .error .noAtSign
    | some (l, d) =>
        if dotAtomScan isFragChar true l ∧ dotAtomScan isHostChar true d then
          .ok (String.mk l, String.mk d)
        else .error .badAddressFormat

/-! ## Envelope grammar and rewriting -/

/-- The SRS separator constant `sep` ("="). -/
def sep : String := "="

/-- Method `parseSRS0`: split the local part after the five-character prefix
into at most four fields and return `(local[4:], hash, timestamp, host, user)`. -/
def SRS.parseSRS0 (_srs : SRS) (locl : String) :
    Except Err (String × String × String × String × String) :=
  let parts := splitN (strDrop locl 5) '=' 4
  if parts.length < 4 then .error .noUserInSRS0
  else .ok (strDrop locl 4, parts.getD 0 "", parts.getD 1 "", parts.getD 2 "", parts.getD 3 "")

/-- The double-separator scan of `parseSRS1`: find the leftmost two-character
substring "==", "=+" or "=-", returning the text before it, the second
character, and the text after it. -/
def findDoubleSep : List Char → Option (List Char × Char × List Char)
  | [] => none
  | [_] => none
  | c :: d :: rest =>
      if c = '=' ∧ (d = '=' ∨ d = '+' ∨ d = '-') then some ([], d, rest)
      else
        match findDoubleSep (d :: rest) with
        | none => none
        | some (a, x, b) => some (c :: a, x, b)

/-- Method `parseSRS1`: scan for the first double separator; with no match
both sides stay empty and parsing fails; a first part of eight or fewer
characters fails; otherwise return
`(srsLocal, srs1Hash, srs1Host, srsHash, srsTimestamp, srsHost, srsUser)`
(the last four fields are parsed but unused by the engine). -/
def SRS.parseSRS1 (_srs : SRS) (locl : String) :
    Except Err (String × String × String × String × String × String × String) :=
  let scan := findDoubleSep locl.data
  let srs1Sep := match scan with
    | none => ""
    | some (_, x, _) => String.mk [x]
  let srs1First := match scan with
    | none => ""
    | some (a, _, _) => String.mk a
  let srs1Second := match scan with
    | none => ""
    | some (_, _, b) => String.mk b
  if srs1First = "" ∧ srs1Second = "" then .error .noUserInSRS1
  else if srs1First.length ≤ 8 then .error .hashTooShort
  else
    let srsLocal := srs1Sep ++ srs1Second
    let h := splitN (strDrop srs1First 5) '=' 2
    let srs1Hash := if h.length = 2 then h.getD 0 "" else ""
    let srs1Host := if h.length = 2 then h.getD 1 "" else ""
    let parts := splitN srs1Second '=' 4
    if parts.length < 4 then .ok (srsLocal, srs1Hash, srs1Host, "", "", "", "")
    else .ok (srsLocal, srs1Hash, srs1Host,
              parts.getD 0 "", parts.getD 1 "", parts.getD 2 "", parts.getD 3 "")

/-- Method `rewrite`: wrap a plain address as a Form-1 (SRS0) envelope. -/
def SRS.rewrite (s : SRS) (locl hostname : String) : Except Err String :=
  let ts := base32Encode (timestamp s.now)
  .ok ("SRS0" ++ s.firstSeparator ++ s.hash (strBytes (lowerStr (ts ++ hostname ++ locl))) ++
       sep ++ ts ++ sep ++ hostname ++ sep ++ locl ++ "@" ++ s.domain)

/-- Method `rewriteSRS0`: rewrap a foreign Form-1 address as a Form-2 (SRS1)
envelope, signing `(hostname, local[4:])`. -/
def SRS.rewriteSRS0 (s : SRS) (locl hostname : String) : Except Err String :=
  let h := s.hash (strBytes (lowerStr (hostname ++ strDrop locl 4)))
  .ok ("SRS1" ++ s.firstSeparator ++ h ++ sep ++ hostname ++ sep ++
       strAt locl 4 ++ strDrop locl 5 ++ "@" ++ s.domain)

/-- Method `rewriteSRS1`: rewrap a foreign Form-2 address as a fresh Form-2
envelope, re-signing the embedded `(host, opaque-part)` pair and discarding
the previous relay's tag. -/
def SRS.rewriteSRS1 (s : SRS) (locl : String) (_hostname : String) : Except Err String :=
  let parts := splitN (strDrop locl 5) '=' 3
  if parts.length ≠ 3 then .error .noSRS
  else
    let srsHost := parts.getD 1 ""
    let srsLocal := parts.getD 2 ""
    let h := s.hash (strBytes (lowerStr (srsHost ++ srsLocal)))
    .ok ("SRS1" ++ s.firstSeparator ++ h ++ sep ++ srsHost ++ sep ++ srsLocal ++ "@" ++ s.domain)

/-- Method `Forward`. -/
def SRS.Forward (s0 : SRS) (email : String) : Except Err String :=
  let s := s0.setDefaults
  let noDomain := hasSuffixAt email
  let email := if noDomain then email ++ s.domain else email
  match parseEmail email with
  | .error e => .error e
  | .ok (locl, host) =>
      let hostname := if noDomain then "" else host
      if hostname = s.domain then .ok email
      else if locl.length < 5 then s.rewrite locl hostname
      else
        let p := upperStr (strTake locl 5)
        if p = "SRS0=" ∨ p = "SRS0+" ∨ p = "SRS0-" then s.rewriteSRS0 locl hostname
        else if p = "SRS1=" ∨ p = "SRS1+" ∨ p = "SRS1-" then s.rewriteSRS1 locl hostname
        else s.rewrite locl hostname

/-- Method `Reverse`. -/
def SRS.Reverse (s0 : SRS) (email : String) : Except Err String :=
  let s := s0.setDefaults
  match parseEmail email with
  | .error _ => .error .noSRS
  | .ok (locl, _) =>
      if locl.length < 5 then .error .noSRS
      else
        let p := upperStr (strTake locl 5)
        if p = "SRS0=" ∨ p = "SRS0+" ∨ p = "SRS0-" then
          match s.parseSRS0 locl with
          | .error e => .error e
          | .ok (_, srsHash, srsTimestamp, srsHost, srsUser) =>
              match s.checkTimestamp srsTimestamp with
              | .error e => .error e
              | .ok _ =>
                  if ¬ lowerStr srsHash =
                      lowerStr (s.hash (strBytes (lowerStr (srsTimestamp ++ srsHost ++ srsUser)))) then
                    .error .hashInvalid
                  else .ok (srsUser ++ "@" ++ srsHost)
        else if p = "SRS1=" ∨ p = "SRS1+" ∨ p = "SRS1-" then
          match s.parseSRS1 locl with
          | .error e => .error e
          | .ok (srsLocal, srs1Hash, srs1Host, _, _, _, _) =>
              if ¬ lowerStr srs1Hash =
                  lowerStr (s.hash (strBytes (lowerStr (srs1Host ++ srsLocal)))) then
                .error .hashInvalid
              else .ok ("SRS0" ++ srsLocal ++ "@" ++ srs1Host)
        else .error .noSRS

/-! ## Basic lemmas about the helpers -/

theorem shiftLeft_lor_small (a b : Nat) (h : b < 32) : a <<< 5 ||| b = a * 32 + b := by
  have h32 : b < 2 ^ 5 := h
  have : a <<< 5 ||| b = a <<< 5 + b := by
    apply Nat.eq_of_testBit_eq
    intro i
    rw [Nat.testBit_lor, Nat.shiftLeft_eq, Nat.mul_comm a, Nat.testBit_mul_pow_two_add a h32 i,
        Nat.mul_comm, ← Nat.shiftLeft_eq, Nat.testBit_shiftLeft]
    by_cases hi : i < 5
    · simp [hi, Nat.not_le.mpr hi]
    · simp only [if_neg hi]
      have hb : b.testBit i = false :=
        Nat.testBit_lt_two_pow
          (Nat.lt_of_lt_of_le h32 (Nat.pow_le_pow_right (by norm_num) (Nat.le_of_not_lt hi)))
      simp [hb, Nat.le_of_not_lt hi]
  rw [this, Nat.shiftLeft_eq]

theorem splitFirst_eq_none {cs : List Char} {x : Char} (h : x ∉ cs) :
    splitFirst cs x = none := by
  induction cs with
  | nil => rfl
  | cons c cs ih =>
      simp only [List.mem_cons, not_or] at h
      simp [splitFirst, Ne.symm h.1, ih h.2]

theorem splitFirst_append {a : List Char} (b : List Char) {x : Char} (h : x ∉ a) :
    splitFirst (a ++ x :: b) x = some (a, b) := by
  induction a with
  | nil => simp [splitFirst]
  | cons c cs ih =>
      simp only [List.mem_cons, not_or] at h
      simp [splitFirst, Ne.symm h.1, ih h.2]

theorem splitNAux_eq_single (k : Nat) {cs : List Char} {x : Char} (h : x ∉ cs) :
    splitNAux k cs x = [cs] := by
  cases k with
  | zero => rfl
  | succ k => simp [splitNAux, splitFirst_eq_none h]

theorem splitNAux_cons (k : Nat) {a : List Char} (b : List Char) {x : Char} (h : x ∉ a) :
    splitNAux (k + 1) (a ++ x :: b) x = a :: splitNAux k b x := by
  simp [splitNAux, splitFirst_append b h]

/-! ## Lemmas about the dot-atom scanner -/

theorem dotAtomScan_ne_nil {p : Char → Bool} {cs : List Char}
    (h : dotAtomScan p true cs = true) : cs ≠ [] := by
  intro hcs
  subst hcs
  simp [dotAtomScan] at h

theorem dotAtomScan_append {p : Char → Bool} {xs : List Char} (ys : List Char) :
    ∀ b, dotAtomScan p b xs = true → dotAtomScan p b (xs ++ ys) = dotAtomScan p false ys := by
  induction xs with
  | nil =>
      intro b h
      cases b with
      | true => simp [dotAtomScan] at h
      | false => simp
  | cons c cs ih =>
      intro b h
      cases b with
      | true =>
          simp only [dotAtomScan, Bool.and_eq_true] at h
          simp only [List.cons_append, dotAtomScan, h.1, Bool.true_and]
          exact ih false h.2
      | false =>
          by_cases hc : c = '.'
          · subst hc
            simp only [dotAtomScan, if_pos rfl] at h
            simp only [List.cons_append, dotAtomScan, if_pos rfl]
            exact ih true h
          · simp only [dotAtomScan, if_neg hc, Bool.and_eq_true] at h
            simp only [List.cons_append, dotAtomScan, if_neg hc, h.1, Bool.true_and]
            exact ih false h.2

theorem dotAtomScan_of_all {p : Char → Bool} {xs : List Char}
    (h : ∀ c ∈ xs, p c = true ∧ c ≠ '.') : dotAtomScan p false xs = true := by
  induction xs with
  | nil => rfl
  | cons c cs ih =>
      have hc := h c (by simp)
      simp only [dotAtomScan, if_neg hc.2, hc.1, Bool.true_and]
      exact ih fun d hd => h d (by simp [hd])

theorem dotAtomScan_mem {p : Char → Bool} {xs : List Char} :
    ∀ b, dotAtomScan p b xs = true → ∀ c ∈ xs, p c = true ∨ c = '.' := by
  induction xs with
  | nil => simp
  | cons c cs ih =>
      intro b h d hd
      cases b with
      | true =>
          simp only [dotAtomScan, Bool.and_eq_true] at h
          rcases List.mem_cons.mp hd with hd | hd
          · exact Or.inl (hd ▸ h.1)
          · exact ih false h.2 d hd
      | false =>
          by_cases hc : c = '.'
          · subst hc
            simp only [dotAtomScan, if_pos rfl] at h
            rcases List.mem_cons.mp hd with hd | hd
            · exact Or.inr hd
            · exact ih true h d hd
          · simp only [dotAtomScan, if_neg hc, Bool.and_eq_true] at h
            rcases List.mem_cons.mp hd with hd | hd
            · exact Or.inl (hd ▸ h.1)
            · exact ih false h.2 d hd

theorem dotAtomScan_true_to_false {p : Char → Bool} (hp : p '.' = false) {xs : List Char}
    (h : dotAtomScan p true xs = true) : dotAtomScan p false xs = true := by
  cases xs with
  | nil => rfl
  | cons c cs =>
      simp only [dotAtomScan, Bool.and_eq_true] at h
      have hc : c ≠ '.' := fun hc => by rw [hc] at h; rw [hp] at h; exact absurd h.1 (by simp)
      simp [dotAtomScan, if_neg hc, h.1, h.2]

theorem dotAtomScan_mono {p q : Char → Bool} (hpq : ∀ c, p c = true → q c = true)
    {xs : List Char} : ∀ b, dotAtomScan p b xs = true → dotAtomScan q b xs = true := by
  induction xs with
  | nil =>
      intro b h
      cases b with
      | true => simp [dotAtomScan] at h
      | false => rfl
  | cons c cs ih =>
      intro b h
      cases b with
      | true =>
          simp only [dotAtomScan, Bool.and_eq_true] at h ⊢
          exact ⟨hpq c h.1, ih false h.2⟩
      | false =>
          by_cases hc : c = '.'
          · subst hc
            simp only [dotAtomScan, if_pos rfl] at h ⊢
            exact ih true h
          · simp only [dotAtomScan, if_neg hc, Bool.and_eq_true] at h ⊢
            exact ⟨hpq c h.1, ih false h.2⟩

/-! ## Character facts about the alphabets, the hash and the counter -/

/-- Characters the base64 alphabet can produce are benign local-part
characters: atext-fragment members distinct from the separators. -/
theorem b64Char_spec (n : Nat) :
    isFragChar (b64Char n) = true ∧ b64Char n ≠ '=' ∧ b64Char n ≠ '.' ∧ b64Char n ≠ '@' := by
  by_cases h : n < 64
  · revert h
    revert n
    decide
  · unfold b64Char
    rw [List.getD_eq_default _ _ (by simpa using Nat.le_of_not_lt h)]
    decide

theorem base32_getD_mem (n : Nat) : base32.data.getD n 'A' ∈ base32.data := by
  by_cases h : n < 32
  · revert h
    revert n
    decide
  · rw [List.getD_eq_default _ _ (by simpa using Nat.le_of_not_lt h)]
    decide

/-- Characters of the radix-32 alphabet are benign local-part characters. -/
theorem base32_chars_spec :
    ∀ c ∈ base32.data, isFragChar c = true ∧ c ≠ '=' ∧ c ≠ '.' ∧ c ≠ '@' := by decide

theorem base32EncodeAux_chars :
    ∀ f x, ∀ c ∈ (base32EncodeAux f x).data, c ∈ base32.data := by
  intro f
  induction f with
  | zero => intro x c hc; simp [base32EncodeAux] at hc
  | succ f ih =>
      intro x c hc
      by_cases hx : x = 0
      · simp [base32EncodeAux, hx] at hc
      · rw [base32EncodeAux, if_neg hx, String.data_append] at hc
        rcases List.mem_append.mp hc with hc | hc
        · exact ih _ c hc
        · have : c = base32.data.getD (x % baseSize) 'A' := by simpa using hc
          exact this ▸ base32_getD_mem _

theorem base32Encode_chars (x : Nat) :
    ∀ c ∈ (base32Encode x).data, c ∈ base32.data :=
  base32EncodeAux_chars x x

theorem sha1_length (msg : List Nat) : (sha1 msg).length = 20 := by
  unfold sha1
  simp [wordBytes]

theorem hmacSha1_length (key msg : List Nat) : (hmacSha1 key msg).length = 20 := by
  unfold hmacSha1
  simp [sha1_length]

theorem exists_cons3_of_length20 (l : List Nat) (h : l.length = 20) :
    ∃ b0 b1 b2 rest, l = b0 :: b1 :: b2 :: rest := by
  cases l with
  | nil => simp at h
  | cons b0 t =>
      cases t with
      | nil => simp at h
      | cons b1 t =>
          cases t with
          | nil => simp at h
          | cons b2 rest => exact ⟨b0, b1, b2, rest, rfl⟩

/-- The emitted tag has exactly `hashLength` (4) characters. -/
theorem hash_length (s : SRS) (input : List Nat) : (SRS.hash s input).data.length = 4 := by
  obtain ⟨b0, b1, b2, rest, hsplit⟩ :=
    exists_cons3_of_length20 _ (hmacSha1_length s.secret input)
  rw [SRS.hash, hsplit, base64Encode]
  simp [hashLength]

/-- Every character of an emitted tag is a base64 alphabet character, hence a
benign local-part character. -/
theorem hash_chars (s : SRS) (input : List Nat) :
    ∀ c ∈ (SRS.hash s input).data,
      isFragChar c = true ∧ c ≠ '=' ∧ c ≠ '.' ∧ c ≠ '@' := by
  obtain ⟨b0, b1, b2, rest, hsplit⟩ :=
    exists_cons3_of_length20 _ (hmacSha1_length s.secret input)
  rw [SRS.hash, hsplit, base64Encode]
  intro c hc
  simp only [hashLength, String.data_append, List.take_append_eq_append_take] at hc
  simp only [List.mem_append] at hc
  rcases hc with hc | hc
  · have : c ∈ [b64Char (b0 >>> 2), b64Char (((b0 % 4) <<< 4) ||| (b1 >>> 4)),
                b64Char (((b1 % 16) <<< 2) ||| (b2 >>> 6)), b64Char (b2 % 64)] :=
      List.mem_of_mem_take hc
    simp only [List.mem_cons, List.mem_singleton] at this
    rcases this with h | h | h | h | h
    all_goals first
      | (exact h ▸ b64Char_spec _)
      | (simp at h)
  · simp at hc

/-! ## Decode of an encoded counter value -/

theorem base32_findIdx_getD (i : Nat) (h : i < 32) :
    List.findIdx? (fun d => d = (base32.data.getD i 'A').toUpper) base32.data = some i := by
  revert h
  revert i
  decide

theorem decodeB32_append (u v : List Char) (acc : Nat) :
    decodeB32 (u ++ v) acc =
      match decodeB32 u acc with
      | .ok a => decodeB32 v a
      | .error e => .error e := by
  induction u generalizing acc with
  | nil => simp [decodeB32]
  | cons c cs ih =>
      rw [List.cons_append, decodeB32, decodeB32]
      cases List.findIdx? (fun d => d = c.toUpper) base32.data with
      | none => rfl
      | some pos => exact ih _

theorem decodeB32_encodeAux (f : Nat) :
    ∀ x acc, x ≤ f →
      decodeB32 (base32EncodeAux f x).data acc =
        .ok (acc * 32 ^ (base32EncodeAux f x).data.length + x) := by
  induction f with
  | zero =>
      intro x acc hx
      have : x = 0 := Nat.le_zero.mp hx
      subst this
      simp [base32EncodeAux, decodeB32]
  | succ f ih =>
      intro x acc hx
      by_cases hx0 : x = 0
      · subst hx0
        simp [base32EncodeAux, decodeB32]
      · rw [base32EncodeAux, if_neg hx0, String.data_append, decodeB32_append]
        have hdiv : x / baseSize ≤ f := by
          have h1 : x / baseSize < x :=
            Nat.div_lt_self (Nat.pos_of_ne_zero hx0) (by norm_num [baseSize])
          omega
        rw [ih _ acc hdiv]
        have hmod : x % baseSize < 32 := Nat.mod_lt _ (by norm_num [baseSize])
        simp only [decodeB32, base32_findIdx_getD _ hmod]
        rw [shiftLeft_lor_small _ _ hmod]
        congr 1
        simp only [List.length_append, List.length_cons, List.length_nil]
        rw [pow_succ]
        have := Nat.div_add_mod x baseSize
        simp only [baseSize] at this ⊢
        ring_nf
        omega

/-- Decoding an encoded slot value recovers it. -/
theorem decodeB32_encode (x : Nat) : decodeB32 (base32Encode x).data 0 = .ok x := by
  have := decodeB32_encodeAux x x 0 le_rfl
  simpa [base32Encode] using this

/-! ## The wraparound loop -/

theorem catchUpAux_of_ge (f : Nat) {now t : Nat} (h : t ≤ now) : catchUpAux f now t = now := by
  cases f with
  | zero => rfl
  | succ f => simp [catchUpAux, Nat.not_lt.mpr h]

theorem catchUp_of_ge {now t : Nat} (h : t ≤ now) : catchUp now t = now :=
  catchUpAux_of_ge t h

/-- When the current slot has wrapped past the encoded slot by less than one
full cycle, one loop iteration lands at `then + d`. -/
theorem catchUp_of_lt {now t : Nat} (hlt : now < t) (hle : t ≤ now + 1024) :
    catchUp now t = now + 1024 := by
  unfold catchUp
  cases ht : t with
  | zero => omega
  | succ f =>
      rw [catchUpAux, if_pos (by omega)]
      simp only [timeSlots]
      exact catchUpAux_of_ge f (by omega)

/-! ## String bridging lemmas and wellformedness predicates -/

theorem data_mk (l : List Char) : (String.mk l).data = l := rfl

theorem mk_data (s : String) : String.mk s.data = s := rfl

theorem mk_append (l1 l2 : List Char) : String.mk l1 ++ String.mk l2 = String.mk (l1 ++ l2) := rfl

/-- A benign segment: fragment characters that are not separators, dots or at
signs, so the segment parses as a unit wherever the grammar splits. -/
def benignSeg (cs : List Char) : Bool :=
  cs.all fun c => isFragChar c && !(c = '=') && !(c = '.') && !(c = '@')

theorem benignSeg_mem {cs : List Char} (h : benignSeg cs = true) :
    ∀ c ∈ cs, isFragChar c = true ∧ c ≠ '=' ∧ c ≠ '.' ∧ c ≠ '@' := by
  intro c hc
  have := List.all_eq_true.mp h c hc
  simp only [Bool.and_eq_true, Bool.not_eq_true', decide_eq_false_iff_not] at this
  exact ⟨this.1.1.1, this.1.1.2, this.1.2, this.2⟩

theorem benignSeg_of_forall {cs : List Char}
    (h : ∀ c ∈ cs, isFragChar c = true ∧ c ≠ '=' ∧ c ≠ '.' ∧ c ≠ '@') :
    benignSeg cs = true := by
  apply List.all_eq_true.mpr
  intro c hc
  obtain ⟨h1, h2, h3, h4⟩ := h c hc
  simp [h1, h2, h3, h4]

/-- Emitted tags are benign segments. -/
theorem hash_benign (s : SRS) (input : List Nat) : benignSeg (SRS.hash s input).data = true :=
  benignSeg_of_forall (hash_chars s input)

/-- Encoded counters are benign segments. -/
theorem base32Encode_benign (x : Nat) : benignSeg (base32Encode x).data = true :=
  benignSeg_of_forall fun c hc => base32_chars_spec c (base32Encode_chars x c hc)

theorem isHostChar_to_frag {c : Char} (h : isHostChar c = true) : isFragChar c = true := by
  simp only [isHostChar, Bool.or_eq_true, decide_eq_true_eq] at h
  rcases h with h | h <;> simp [isFragChar, h]

theorem isHostChar_ne_eq {c : Char} (h : isHostChar c = true) : c ≠ '=' := by
  rintro rfl
  revert h
  decide

theorem isHostChar_ne_at {c : Char} (h : isHostChar c = true) : c ≠ '@' := by
  rintro rfl
  revert h
  decide

theorem isFragChar_ne_at {c : Char} (h : isFragChar c = true) : c ≠ '@' := by
  rintro rfl
  revert h
  decide

theorem benignSeg_not_mem_eq {cs : List Char} (h : benignSeg cs = true) : '=' ∉ cs :=
  fun hc => absurd rfl (benignSeg_mem h _ hc).2.1

theorem benignSeg_not_mem_at {cs : List Char} (h : benignSeg cs = true) : '@' ∉ cs :=
  fun hc => absurd rfl (benignSeg_mem h _ hc).2.2.2

theorem benignSeg_scan {cs : List Char} (h : benignSeg cs = true) :
    dotAtomScan isFragChar false cs = true :=
  dotAtomScan_of_all fun c hc => ⟨(benignSeg_mem h c hc).1, (benignSeg_mem h c hc).2.2.1⟩

/-- Characters of a host-form string are not separators or at signs. -/
theorem hostScan_not_mem_eq {cs : List Char} (h : dotAtomScan isHostChar true cs = true) :
    '=' ∉ cs := by
  intro hc
  rcases dotAtomScan_mem true h _ hc with hm | hm
  · exact absurd rfl (isHostChar_ne_eq hm)
  · exact absurd hm (by decide)

theorem hostScan_not_mem_at {cs : List Char} (h : dotAtomScan isHostChar true cs = true) :
    '@' ∉ cs := by
  intro hc
  rcases dotAtomScan_mem true h _ hc with hm | hm
  · exact absurd rfl (isHostChar_ne_at hm)
  · exact absurd hm (by decide)

theorem fragScan_not_mem_at {cs : List Char} (h : dotAtomScan isFragChar true cs = true) :
    '@' ∉ cs := by
  intro hc
  rcases dotAtomScan_mem true h _ hc with hm | hm
  · exact absurd rfl (isFragChar_ne_at hm)
  · exact absurd hm (by decide)

theorem hostScan_to_fragScan_false {cs : List Char}
    (h : dotAtomScan isHostChar true cs = true) :
    dotAtomScan isFragChar false cs = true :=
  dotAtomScan_true_to_false (by decide)
    (dotAtomScan_mono (fun _ => isHostChar_to_frag) true h)

theorem fragScan_to_false {cs : List Char}
    (h : dotAtomScan isFragChar true cs = true) :
    dotAtomScan isFragChar false cs = true :=
  dotAtomScan_true_to_false (by decide) h

/-! ## setDefaults preservation -/

theorem SRS.setDefaults_secret (s : SRS) : s.setDefaults.secret = s.secret := by
  unfold SRS.setDefaults
  split <;> rfl

theorem SRS.setDefaults_domain (s : SRS) : s.setDefaults.domain = s.domain := by
  unfold SRS.setDefaults
  split <;> rfl

theorem SRS.setDefaults_now (s : SRS) : s.setDefaults.now = s.now := by
  unfold SRS.setDefaults
  split <;> rfl

theorem SRS.setDefaults_eq_self {s : SRS}
    (h : s.firstSeparator = "=" ∨ s.firstSeparator = "+" ∨ s.firstSeparator = "-") :
    s.setDefaults = s := by
  unfold SRS.setDefaults
  rw [if_pos h]

theorem SRS.setDefaults_hash (s : SRS) (input : List Nat) :
    s.setDefaults.hash input = s.hash input := by
  unfold SRS.hash
  rw [SRS.setDefaults_secret]

theorem SRS.setDefaults_checkTimestamp (s : SRS) (ts : String) :
    s.setDefaults.checkTimestamp ts = s.checkTimestamp ts := by
  unfold SRS.checkTimestamp
  rw [SRS.setDefaults_now]

/-! ## parseEmail on wellformed addresses -/

theorem parseEmail_ok {l d : List Char}
    (hl : dotAtomScan isFragChar true l = true)
    (hd : dotAtomScan isHostChar true d = true)
    (hlat : '@' ∉ l) :
    parseEmail (String.mk (l ++ '@' :: d)) = .ok (String.mk l, String.mk d) := by
  unfold parseEmail
  have hmem : '@' ∈ (String.mk (l ++ '@' :: d)).data := by simp [data_mk]
  rw [if_neg (by simp [List.elem_eq_true_of_mem hmem])]
  rw [data_mk, splitFirst_append _ hlat]
  simp [hl, hd]

theorem append_at_data (u h : String) :
    (u ++ "@" ++ h).data = u.data ++ '@' :: h.data := by
  simp [String.data_append]

theorem append_at_eq_mk (u h : String) :
    (u ++ "@" ++ h) = String.mk (u.data ++ '@' :: h.data) :=
  String.ext (append_at_data u h)

theorem hasSuffixAt_append_host {u h : String}
    (hh : dotAtomScan isHostChar true h.data = true) :
    hasSuffixAt (u ++ "@" ++ h) = false := by
  have hnonil : h.data ≠ [] := dotAtomScan_ne_nil hh
  have hlast := List.getLast?_eq_getLast_of_ne_nil hnonil
  have hmem : h.data.getLast hnonil ∈ h.data := List.getLast_mem hnonil
  have hne : h.data.getLast hnonil ≠ '@' := fun hc => hostScan_not_mem_at hh (hc ▸ hmem)
  unfold hasSuffixAt
  rw [append_at_data]
  have : (u.data ++ '@' :: h.data).getLast? = some (h.data.getLast hnonil) := by
    rw [List.append_cons, List.getLast?_append, hlast]
    rfl
  rw [this]
  simp [hne]

/-! ## Forward on an unwrapped address -/

/-- `Forward` on a plain (not SRS-prefixed) wellformed address at a foreign
domain takes the `rewrite` branch and emits the Form-1 envelope. -/
theorem forward_unwrapped (s : SRS)
    (hfs : s.firstSeparator = "=" ∨ s.firstSeparator = "+" ∨ s.firstSeparator = "-")
    (user host : String)
    (huser : dotAtomScan isFragChar true user.data = true)
    (hhost : dotAtomScan isHostChar true host.data = true)
    (hne : host ≠ s.domain)
    (hclass : user.length < 5 ∨
      (¬(upperStr (strTake user 5) = "SRS0=" ∨ upperStr (strTake user 5) = "SRS0+" ∨
         upperStr (strTake user 5) = "SRS0-") ∧
       ¬(upperStr (strTake user 5) = "SRS1=" ∨ upperStr (strTake user 5) = "SRS1+" ∨
         upperStr (strTake user 5) = "SRS1-"))) :
    SRS.Forward s (user ++ "@" ++ host) =
      .ok ("SRS0" ++ s.firstSeparator ++
           s.hash (strBytes (lowerStr (base32Encode (timestamp s.now) ++ host ++ user))) ++
           sep ++ base32Encode (timestamp s.now) ++ sep ++ host ++ sep ++ user ++ "@" ++ s.domain) := by
  have hsuf := hasSuffixAt_append_host (u := user) hhost
  unfold SRS.Forward
  rw [SRS.setDefaults_eq_self hfs]
  simp only [hsuf, Bool.false_eq_true, if_false]
  rw [append_at_eq_mk, parseEmail_ok huser hhost (fragScan_not_mem_at huser), mk_data, mk_data]
  simp only [Bool.false_eq_true, if_false]
  rw [if_neg hne]
  by_cases hlen : user.length < 5
  · rw [if_pos hlen]
    rfl
  · rw [if_neg hlen]
    rcases hclass with hlen' | ⟨h0, h1⟩
    · exact absurd hlen' hlen
    · rw [if_neg h0, if_neg h1]
      rfl

/-! ## Reverse on a wellformed Form-1 address -/

theorem scan_false_eq_cons (cs : List Char) :
    dotAtomScan isFragChar false ('=' :: cs) = dotAtomScan isFragChar false cs := by
  have h1 : ('=' : Char) ≠ '.' := by decide
  have h2 : isFragChar '=' = true := by decide
  simp [dotAtomScan, h1, h2]

theorem srs_tail2_scan {A B C : List Char}
    (hA : dotAtomScan isFragChar false A = true)
    (hB : dotAtomScan isHostChar true B = true)
    (hC : dotAtomScan isFragChar false C = true) :
    dotAtomScan isFragChar false (A ++ '=' :: (B ++ '=' :: C)) = true := by
  rw [dotAtomScan_append _ false hA, scan_false_eq_cons,
      dotAtomScan_append _ false (hostScan_to_fragScan_false hB), scan_false_eq_cons]
  exact hC

theorem srs_tail2_no_at {A B C : List Char}
    (hA : '@' ∉ A) (hB : dotAtomScan isHostChar true B = true) (hC : '@' ∉ C) :
    '@' ∉ A ++ '=' :: (B ++ '=' :: C) := by
  intro hm
  simp only [List.mem_cons, List.mem_append] at hm
  rcases hm with h | h | h | h | h
  · exact hA h
  · exact absurd h.symm (by decide)
  · exact hostScan_not_mem_at hB h
  · exact absurd h.symm (by decide)
  · exact hC h

theorem srs_local_scan {d f : Char} (hd : isFragChar d = true) (hddot : d ≠ '.')
    (hf : f = '=' ∨ f = '+' ∨ f = '-') {tail : List Char}
    (htail : dotAtomScan isFragChar false tail = true) :
    dotAtomScan isFragChar true ('S' :: 'R' :: 'S' :: d :: f :: tail) = true := by
  have hfS : isFragChar 'S' = true := by decide
  have hfR : isFragChar 'R' = true := by decide
  have hff : isFragChar f = true := by rcases hf with rfl | rfl | rfl <;> decide
  have hne : ∀ c, isFragChar c = true → c ≠ '.' := by
    intro c h hc
    subst hc
    revert h
    decide
  simp only [dotAtomScan, hfS, hfR, hd, hff, Bool.true_and,
    if_neg (hne _ hfS), if_neg (hne _ hfR), if_neg hddot, if_neg (hne _ hff)]
  exact htail

theorem srs_local_no_at {d f : Char} (hdat : d ≠ '@')
    (hf : f = '=' ∨ f = '+' ∨ f = '-') {tail : List Char}
    (htail : '@' ∉ tail) :
    '@' ∉ ('S' :: 'R' :: 'S' :: d :: f :: tail) := by
  intro hm
  simp only [List.mem_cons] at hm
  rcases hm with h | h | h | h | h | h
  · exact absurd h.symm (by decide)
  · exact absurd h.symm (by decide)
  · exact absurd h.symm (by decide)
  · exact hdat h.symm
  · rcases hf with rfl | rfl | rfl <;> exact absurd h.symm (by decide)
  · exact htail h

theorem parseSRS0_form1 (sArg : SRS) (f : Char) (H ts host user : String)
    (hH : '=' ∉ H.data) (hts : '=' ∉ ts.data) (hhost : '=' ∉ host.data) :
    SRS.parseSRS0 sArg
      (String.mk ('S' :: 'R' :: 'S' :: '0' :: f ::
        (H.data ++ '=' :: (ts.data ++ '=' :: (host.data ++ '=' :: user.data))))) =
      .ok (String.mk (f :: (H.data ++ '=' :: (ts.data ++ '=' :: (host.data ++ '=' :: user.data)))),
           H, ts, host, user) := by
  unfold SRS.parseSRS0 splitN strDrop
  simp only [data_mk, List.drop_succ_cons, List.drop_zero]
  rw [show (4 - 1 : Nat) = 2 + 1 from rfl, splitNAux_cons 2 _ hH,
      show (2 : Nat) = 1 + 1 from rfl, splitNAux_cons 1 _ hts,
      show (1 : Nat) = 0 + 1 from rfl, splitNAux_cons 0 _ hhost]
  simp [mk_data, splitNAux]

/-- The local-part character list of a wellformed Form-1 address. -/
theorem form1_scan (f : Char) (hf : f = '=' ∨ f = '+' ∨ f = '-')
    (H ts host user : String)
    (hH : benignSeg H.data = true) (hts : benignSeg ts.data = true)
    (hhost : dotAtomScan isHostChar true host.data = true)
    (huser : dotAtomScan isFragChar true user.data = true) :
    dotAtomScan isFragChar true
      ('S' :: 'R' :: 'S' :: '0' :: f ::
        (H.data ++ '=' :: (ts.data ++ '=' :: (host.data ++ '=' :: user.data)))) = true := by
  have hfS : isFragChar 'S' = true := by decide
  have hfR : isFragChar 'R' = true := by decide
  have hf0 : isFragChar '0' = true := by decide
  have hff : isFragChar f = true := by rcases hf with h | h | h <;> subst h <;> decide
  have hne : ∀ c, isFragChar c = true → c ≠ '.' := by
    intro c h hc
    subst hc
    revert h
    decide
  simp only [dotAtomScan, hfS, hfR, hf0, hff, Bool.true_and,
    if_neg (hne _ hfS), if_neg (hne _ hfR), if_neg (hne _ hf0), if_neg (hne _ hff)]
  rw [dotAtomScan_append _ false (benignSeg_scan hH), scan_false_eq_cons,
      dotAtomScan_append _ false (benignSeg_scan hts), scan_false_eq_cons,
      dotAtomScan_append _ false (hostScan_to_fragScan_false hhost), scan_false_eq_cons]
  exact fragScan_to_false huser

theorem form1_no_at (f : Char) (hf : f = '=' ∨ f = '+' ∨ f = '-')
    (H ts host user : String)
    (hH : benignSeg H.data = true) (hts : benignSeg ts.data = true)
    (hhost : dotAtomScan isHostChar true host.data = true)
    (huser : dotAtomScan isFragChar true user.data = true) :
    '@' ∉ ('S' :: 'R' :: 'S' :: '0' :: f ::
        (H.data ++ '=' :: (ts.data ++ '=' :: (host.data ++ '=' :: user.data)))) := by
  intro hmem
  simp only [List.mem_cons, List.mem_append] at hmem
  rcases hmem with h | h | h | h | h | h | h | h | h | h | h | h
  · exact absurd h.symm (by decide)
  · exact absurd h.symm (by decide)
  · exact absurd h.symm (by decide)
  · exact absurd h.symm (by decide)
  · rcases hf with hfc | hfc | hfc <;> (subst hfc; exact absurd h.symm (by decide))
  · exact benignSeg_not_mem_at hH h
  · exact absurd h.symm (by decide)
  · exact benignSeg_not_mem_at hts h
  · exact absurd h.symm (by decide)
  · exact hostScan_not_mem_at hhost h
  · exact absurd h.symm (by decide)
  · exact fragScan_not_mem_at huser h

theorem mk_length (l : List Char) : (String.mk l).length = l.length := rfl

/-- `Reverse` on a wellformed Form-1 address: the timestamp is validated
first, then the presented tag is compared case-insensitively against the
recomputed tag over `(timestamp, host, user)`. -/
theorem reverse_form1 (s : SRS) (f : Char) (hf : f = '=' ∨ f = '+' ∨ f = '-')
    (H ts host user : String)
    (hH : benignSeg H.data = true) (hts : benignSeg ts.data = true)
    (hhost : dotAtomScan isHostChar true host.data = true)
    (huser : dotAtomScan isFragChar true user.data = true)
    (hdom : dotAtomScan isHostChar true s.domain.data = true) :
    SRS.Reverse s ("SRS0" ++ String.mk [f] ++ H ++ sep ++ ts ++ sep ++ host ++ sep ++ user
        ++ "@" ++ s.domain) =
      match s.checkTimestamp ts with
      | .error e => .error e
      | .ok _ =>
          if lowerStr H = lowerStr (s.hash (strBytes (lowerStr (ts ++ host ++ user)))) then
            .ok (user ++ "@" ++ host)
          else .error .hashInvalid := by
  have h1 : ("SRS0" : String).data = ['S', 'R', 'S', '0'] := rfl
  have h2 : (sep : String).data = ['='] := rfl
  have h3 : ("@" : String).data = ['@'] := rfl
  have haddr : ("SRS0" ++ String.mk [f] ++ H ++ sep ++ ts ++ sep ++ host ++ sep ++ user
      ++ "@" ++ s.domain) =
      String.mk (('S' :: 'R' :: 'S' :: '0' :: f ::
        (H.data ++ '=' :: (ts.data ++ '=' :: (host.data ++ '=' :: user.data))))
        ++ '@' :: s.domain.data) := by
    apply String.ext
    simp [String.data_append, data_mk, h1, h2, h3]
  rw [haddr]
  unfold SRS.Reverse
  rw [parseEmail_ok (form1_scan f hf H ts host user hH hts hhost huser) hdom
      (form1_no_at f hf H ts host user hH hts hhost huser)]
  have hlen : ¬ (String.mk ('S' :: 'R' :: 'S' :: '0' :: f ::
      (H.data ++ '=' :: (ts.data ++ '=' :: (host.data ++ '=' :: user.data))))).length < 5 := by
    simp [mk_length]
  have hup : upperStr (strTake (String.mk ('S' :: 'R' :: 'S' :: '0' :: f ::
      (H.data ++ '=' :: (ts.data ++ '=' :: (host.data ++ '=' :: user.data))))) 5) =
      String.mk ['S', 'R', 'S', '0', f] := by
    have hfu : f.toUpper = f := by rcases hf with rfl | rfl | rfl <;> rfl
    simp [strTake, upperStr, data_mk, List.take_succ_cons, hfu]
  have hcase : String.mk ['S', 'R', 'S', '0', f] = "SRS0=" ∨
      String.mk ['S', 'R', 'S', '0', f] = "SRS0+" ∨
      String.mk ['S', 'R', 'S', '0', f] = "SRS0-" := by
    rcases hf with rfl | rfl | rfl
    · exact Or.inl rfl
    · exact Or.inr (Or.inl rfl)
    · exact Or.inr (Or.inr rfl)
  simp only [if_neg hlen, hup, if_pos hcase,
    parseSRS0_form1 _ f H ts host user (benignSeg_not_mem_eq hH) (benignSeg_not_mem_eq hts)
      (hostScan_not_mem_eq hhost),
    SRS.setDefaults_checkTimestamp, SRS.setDefaults_hash]
  cases hct : s.checkTimestamp ts with
  | error e => rfl
  | ok u =>
      by_cases hcmp : lowerStr H = lowerStr (s.hash (strBytes (lowerStr (ts ++ host ++ user))))
      · rw [if_neg (not_not_intro hcmp), if_pos hcmp]
      · rw [if_pos hcmp, if_neg hcmp]

/-- A timestamp encoded from the engine's own clock validates at that clock. -/
theorem checkTimestamp_fresh (s : SRS) :
    s.checkTimestamp (base32Encode (timestamp s.now)) = .ok () := by
  simp only [SRS.checkTimestamp, decodeB32_encode, catchUp_of_ge le_rfl]
  rw [if_pos (Nat.le_add_right _ _)]

/-- A concrete engine used to instantiate the claim theorems. -/
def srsExample : SRS :=
  { secret := "tops3cr3t".data.map Char.toNat
    domain := "example.com"
    firstSeparator := "="
    now := 1760140800 }

/-- C1: for an address `user@host` with `host` different from the configured
domain (the address wellformed for the modelled splitter, the local part not
itself SRS-wrapped, the separator configured), reversing the forwarded
address at the same clock returns exactly `user@host`. -/
theorem c1_roundtrip (s : SRS)
    (hfs : s.firstSeparator = "=" ∨ s.firstSeparator = "+" ∨ s.firstSeparator = "-")
    (user host : String)
    (huser : dotAtomScan isFragChar true user.data = true)
    (hhost : dotAtomScan isHostChar true host.data = true)
    (hdom : dotAtomScan isHostChar true s.domain.data = true)
    (hne : host ≠ s.domain)
    (hclass : user.length < 5 ∨
      (¬(upperStr (strTake user 5) = "SRS0=" ∨ upperStr (strTake user 5) = "SRS0+" ∨
         upperStr (strTake user 5) = "SRS0-") ∧
       ¬(upperStr (strTake user 5) = "SRS1=" ∨ upperStr (strTake user 5) = "SRS1+" ∨
         upperStr (strTake user 5) = "SRS1-"))) :
    (SRS.Forward s (user ++ "@" ++ host)).bind (SRS.Reverse s) = .ok (user ++ "@" ++ host) := by
  rw [forward_unwrapped s hfs user host huser hhost hne hclass]
  obtain ⟨f, hf, hfs'⟩ : ∃ f, (f = '=' ∨ f = '+' ∨ f = '-') ∧ s.firstSeparator = String.mk [f] := by
    rcases hfs with h | h | h
    · exact ⟨'=', Or.inl rfl, by rw [h]⟩
    · exact ⟨'+', Or.inr (Or.inl rfl), by rw [h]⟩
    · exact ⟨'-', Or.inr (Or.inr rfl), by rw [h]⟩
  rw [Except.bind, hfs']
  rw [reverse_form1 s f hf _ _ host user
      (hash_benign s _) (base32Encode_benign _) hhost huser hdom]
  rw [checkTimestamp_fresh]
  rw [if_pos rfl]

theorem c1_roundtrip_witness :
    (SRS.Forward srsExample ("test" ++ "@" ++ "otherdomain.com")).bind (SRS.Reverse srsExample) =
      .ok ("test" ++ "@" ++ "otherdomain.com") :=
  c1_roundtrip srsExample (Or.inl rfl) "test" "otherdomain.com"
    (by decide) (by decide) (by decide) (by decide) (Or.inl (by decide))

/-- C8: `Forward` returns the address unchanged, with no error, whenever the
parsed domain part equals the configured domain. -/
theorem c8_forward_local_identity (s : SRS) (email l : String)
    (hsuf : hasSuffixAt email = false)
    (hparse : parseEmail email = .ok (l, s.domain)) :
    SRS.Forward s email = .ok email := by
  unfold SRS.Forward
  simp only [hsuf, Bool.false_eq_true, if_false, SRS.setDefaults_domain, hparse]
  simp

theorem c8_forward_local_identity_witness :
    SRS.Forward srsExample "milos@example.com" = .ok "milos@example.com" :=
  c8_forward_local_identity srsExample "milos@example.com" "milos" (by decide) rfl

/-- An address ending in a bare at sign always passes the suffix test. -/
theorem hasSuffixAt_trailing (u : String) : hasSuffixAt (u ++ "@") = true := by
  unfold hasSuffixAt
  have : (u ++ "@").data = u.data ++ ['@'] := by simp [String.data_append]
  rw [this, List.getLast?_append]
  rfl

/-- C9: `Forward` accepts an address ending in a bare "@" (no domain part)
and wraps it as an unwrapped address whose original-domain field in the
emitted SRS0 envelope is the empty string. -/
theorem c9_forward_no_domain (s : SRS)
    (hfs : s.firstSeparator = "=" ∨ s.firstSeparator = "+" ∨ s.firstSeparator = "-")
    (user : String)
    (huser : dotAtomScan isFragChar true user.data = true)
    (hdom : dotAtomScan isHostChar true s.domain.data = true)
    (hdomne : s.domain ≠ "")
    (hclass : user.length < 5 ∨
      (¬(upperStr (strTake user 5) = "SRS0=" ∨ upperStr (strTake user 5) = "SRS0+" ∨
         upperStr (strTake user 5) = "SRS0-") ∧
       ¬(upperStr (strTake user 5) = "SRS1=" ∨ upperStr (strTake user 5) = "SRS1+" ∨
         upperStr (strTake user 5) = "SRS1-"))) :
    SRS.Forward s (user ++ "@") =
      .ok ("SRS0" ++ s.firstSeparator ++
           s.hash (strBytes (lowerStr (base32Encode (timestamp s.now) ++ "" ++ user))) ++
           sep ++ base32Encode (timestamp s.now) ++ sep ++ "" ++ sep ++ user ++ "@" ++ s.domain) := by
  unfold SRS.Forward
  rw [SRS.setDefaults_eq_self hfs]
  rw [hasSuffixAt_trailing]
  simp only [if_true]
  have hemail : (user ++ "@" ++ s.domain) = String.mk (user.data ++ '@' :: s.domain.data) :=
    append_at_eq_mk user s.domain
  rw [String.append_assoc] at hemail ⊢
  rw [hemail, parseEmail_ok huser hdom (fragScan_not_mem_at huser), mk_data, mk_data]
  simp only [if_true]
  rw [if_neg (fun h => hdomne h.symm)]
  by_cases hlen : user.length < 5
  · rw [if_pos hlen]
    rfl
  · rw [if_neg hlen]
    rcases hclass with hlen' | ⟨h0, h1⟩
    · exact absurd hlen' hlen
    · rw [if_neg h0, if_neg h1]
      rfl

theorem c9_forward_no_domain_witness :
    SRS.Forward srsExample ("milo" ++ "@") =
      .ok ("SRS0" ++ srsExample.firstSeparator ++
           srsExample.hash (strBytes (lowerStr
             (base32Encode (timestamp srsExample.now) ++ "" ++ "milo"))) ++
           sep ++ base32Encode (timestamp srsExample.now) ++ sep ++ "" ++ sep ++ "milo"
           ++ "@" ++ srsExample.domain) :=
  c9_forward_no_domain srsExample (Or.inl rfl) "milo" (by decide) (by decide) (by decide)
    (Or.inl (by decide))

/-! ## C3: timestamp validation -/

theorem decodeB32_invalid : ∀ (cs : List Char) (acc : Nat),
    (∃ c ∈ cs, c.toUpper ∉ base32.data) →
    decodeB32 cs acc = .error .timestampInvalidBase32 := by
  intro cs
  induction cs with
  | nil => intro acc h; simp at h
  | cons c cs ih =>
      intro acc h
      rw [decodeB32]
      cases hidx : List.findIdx? (fun d => d = c.toUpper) base32.data with
      | none => rfl
      | some pos =>
          have hcmem : c.toUpper ∈ base32.data := by
            by_contra hc
            have : List.findIdx? (fun d => d = c.toUpper) base32.data = none :=
              List.findIdx?_eq_none_iff.mpr fun x hx => by
                simp only [decide_eq_false_iff_not]
                exact fun he => hc (he ▸ hx)
            rw [this] at hidx
            exact Option.noConfusion hidx
          obtain ⟨e, he, hinv⟩ := h
          rcases List.mem_cons.mp he with rfl | he'
          · exact absurd hcmem hinv
          · exact ih _ ⟨e, he', hinv⟩

theorem timestamp_lt (n : Nat) : timestamp n < 1024 := by
  unfold timestamp timeSlots
  exact Nat.mod_lt _ (by norm_num)

/-- C3: timestamp validation decodes by case-insensitive lookup in the
32-symbol alphabet, failing with the invalid-digit error when a character is
absent; on an encoded slot it adds 1024 to the current slot while it trails
the encoded slot and succeeds exactly when the (wraparound-corrected)
current slot is at most the encoded slot plus `maxAge` (21) days.  In
particular a timestamp exactly 21 days old verifies and one 22 days old
fails as expired. -/
theorem c3_checkTimestamp_spec :
    (∀ (s : SRS) (ts : String), (∃ c ∈ ts.data, c.toUpper ∉ base32.data) →
        s.checkTimestamp ts = .error .timestampInvalidBase32) ∧
    (∀ (s : SRS) (n0 d : Nat), d < 1024 → s.now = n0 + d * 86400 →
        s.checkTimestamp (base32Encode (timestamp n0)) =
          if d ≤ 21 then .ok () else .error .timestampWrongSlot) := by
  constructor
  · intro s ts h
    unfold SRS.checkTimestamp
    rw [decodeB32_invalid ts.data 0 h]
  · intro s n0 d hd hnow
    have hslot : timestamp s.now = (timestamp n0 + d) % 1024 := by
      unfold timestamp timePrecision timeSlots
      rw [hnow, Nat.add_mul_div_right _ _ (by norm_num : (0:Nat) < 86400), Nat.mod_add_mod]
    have hsigma := timestamp_lt n0
    have hcu : catchUp ((timestamp n0 + d) % 1024) (timestamp n0) = timestamp n0 + d := by
      by_cases hlt : timestamp n0 + d < 1024
      · rw [Nat.mod_eq_of_lt hlt]
        exact catchUp_of_ge (Nat.le_add_right _ _)
      · have h2 : timestamp n0 + d < 2048 := by omega
        have hnu : (timestamp n0 + d) % 1024 = timestamp n0 + d - 1024 := by
          rw [Nat.mod_eq_sub_mod (by omega)]
          exact Nat.mod_eq_of_lt (by omega)
        rw [hnu, catchUp_of_lt (by omega) (by omega)]
        omega
    simp only [SRS.checkTimestamp, decodeB32_encode, hslot, hcu]
    unfold maxAge
    by_cases hd21 : d ≤ 21
    · rw [if_pos (by omega), if_pos hd21]
    · rw [if_neg (by omega), if_neg hd21]

theorem c3_checkTimestamp_spec_witness :
    srsExample.checkTimestamp "9A" = .error .timestampInvalidBase32 ∧
    srsExample.checkTimestamp (base32Encode (timestamp 1758326400)) =
      (if 21 ≤ 21 then Except.ok () else .error .timestampWrongSlot) ∧
    srsExample.checkTimestamp (base32Encode (timestamp 1758240000)) =
      (if 22 ≤ 21 then Except.ok () else .error .timestampWrongSlot) :=
  ⟨c3_checkTimestamp_spec.1 srsExample "9A" ⟨'9', by decide, by decide⟩,
   c3_checkTimestamp_spec.2 srsExample 1758326400 21 (by decide) (by decide),
   c3_checkTimestamp_spec.2 srsExample 1758240000 22 (by decide) (by decide)⟩

/-! ## C10: timestamp is checked before the tag -/

theorem decodeB32_error_kind : ∀ (cs : List Char) (acc : Nat) (e : Err),
    decodeB32 cs acc = .error e → e = .timestampInvalidBase32 := by
  intro cs
  induction cs with
  | nil => intro acc e h; simp [decodeB32] at h
  | cons c cs ih =>
      intro acc e h
      rw [decodeB32] at h
      cases hidx : List.findIdx? (fun d => d = c.toUpper) base32.data with
      | none =>
          rw [hidx] at h
          exact (Except.error.injEq _ _).mp h.symm
      | some pos =>
          rw [hidx] at h
          exact ih _ e h

theorem checkTimestamp_error_kind (s : SRS) (ts : String) (e : Err)
    (h : s.checkTimestamp ts = .error e) :
    e = .timestampInvalidBase32 ∨ e = .timestampWrongSlot := by
  unfold SRS.checkTimestamp at h
  cases hd : decodeB32 ts.data 0 with
  | error e' =>
      rw [hd] at h
      simp only [Except.error.injEq] at h
      exact Or.inl (h ▸ decodeB32_error_kind ts.data 0 e' hd)
  | ok v =>
      rw [hd] at h
      dsimp only at h
      by_cases hle : catchUp (timestamp s.now) v ≤ v + maxAge
      · rw [if_pos hle] at h
        exact Except.noConfusion h
      · rw [if_neg hle] at h
        simp only [Except.error.injEq] at h
        exact Or.inr h.symm

/-- C10: on a Form-1 address whose timestamp fails validation, `Reverse`
reports the timestamp error (an invalid-digit or expired error) no matter
what tag is presented — the tag is never compared first. -/
theorem c10_timestamp_checked_first (s : SRS) (f : Char)
    (hf : f = '=' ∨ f = '+' ∨ f = '-')
    (H ts host user : String)
    (hH : benignSeg H.data = true) (hts : benignSeg ts.data = true)
    (hhost : dotAtomScan isHostChar true host.data = true)
    (huser : dotAtomScan isFragChar true user.data = true)
    (hdom : dotAtomScan isHostChar true s.domain.data = true)
    (e : Err) (hct : s.checkTimestamp ts = .error e) :
    SRS.Reverse s ("SRS0" ++ String.mk [f] ++ H ++ sep ++ ts ++ sep ++ host ++ sep ++ user
        ++ "@" ++ s.domain) = .error e ∧
      (e = .timestampInvalidBase32 ∨ e = .timestampWrongSlot) := by
  refine ⟨?_, checkTimestamp_error_kind s ts e hct⟩
  rw [reverse_form1 s f hf H ts host user hH hts hhost huser hdom, hct]

theorem c10_timestamp_checked_first_witness :
    SRS.Reverse srsExample ("SRS0" ++ String.mk ['='] ++ "AAAA" ++ sep ++ "99" ++ sep ++
        "netmark.rs" ++ sep ++ "milos" ++ "@" ++ srsExample.domain) =
        .error .timestampInvalidBase32 ∧
      (Err.timestampInvalidBase32 = .timestampInvalidBase32 ∨
       Err.timestampInvalidBase32 = .timestampWrongSlot) :=
  c10_timestamp_checked_first srsExample '=' (Or.inl rfl) "AAAA" "99" "netmark.rs" "milos"
    (by decide) (by decide) (by decide) (by decide) (by decide) .timestampInvalidBase32 rfl

/-! ## C4: the authentication tag computation -/

/-- Modelled from the spec: `AuthenticationTag.compute(secret, fields)` —
"canonicalize by joining fields in a fixed, caller-specified order,
lower-casing the full canonical string, computing HMAC-SHA1 over it with
`secret`, base64-encoding the raw digest, and truncating to `hashLength`
characters." -/
def specCompute (secret : List Nat) (fields : List String) : String :=
  strTake (base64Encode (hmacSha1 secret (strBytes (lowerStr (String.join fields))))) hashLength

/-- C4: the tag the engine computes over a Form-1 address equals the
spec-described pipeline applied to the ordered fields
`[timestamp, host, user]`, and `Reverse` accepts a presented tag exactly
when it matches that tag case-insensitively. -/
theorem c4_tag_computation (s : SRS) (f : Char)
    (hf : f = '=' ∨ f = '+' ∨ f = '-')
    (H ts host user : String)
    (hH : benignSeg H.data = true) (hts : benignSeg ts.data = true)
    (hhost : dotAtomScan isHostChar true host.data = true)
    (huser : dotAtomScan isFragChar true user.data = true)
    (hdom : dotAtomScan isHostChar true s.domain.data = true)
    (htsok : s.checkTimestamp ts = .ok ()) :
    s.hash (strBytes (lowerStr (ts ++ host ++ user))) = specCompute s.secret [ts, host, user] ∧
    (SRS.Reverse s ("SRS0" ++ String.mk [f] ++ H ++ sep ++ ts ++ sep ++ host ++ sep ++ user
        ++ "@" ++ s.domain) = .ok (user ++ "@" ++ host) ↔
      lowerStr H = lowerStr (specCompute s.secret [ts, host, user])) := by
  have hjoin : specCompute s.secret [ts, host, user] =
      s.hash (strBytes (lowerStr (ts ++ host ++ user))) := rfl
  refine ⟨hjoin.symm, ?_⟩
  rw [reverse_form1 s f hf H ts host user hH hts hhost huser hdom, htsok, hjoin]
  constructor
  · intro h
    by_cases hcmp : lowerStr H = lowerStr (s.hash (strBytes (lowerStr (ts ++ host ++ user))))
    · exact hcmp
    · rw [if_neg hcmp] at h
      exact Except.noConfusion h
  · intro h
    rw [if_pos h]

theorem c4_tag_computation_witness :
    srsExample.hash (strBytes (lowerStr
        (base32Encode (timestamp srsExample.now) ++ "otherdomain.com" ++ "test"))) =
      specCompute srsExample.secret
        [base32Encode (timestamp srsExample.now), "otherdomain.com", "test"] ∧
    (SRS.Reverse srsExample ("SRS0" ++ String.mk ['='] ++ "AAAA" ++ sep ++
        base32Encode (timestamp srsExample.now) ++ sep ++ "otherdomain.com" ++ sep ++ "test"
        ++ "@" ++ srsExample.domain) = .ok ("test" ++ "@" ++ "otherdomain.com") ↔
      lowerStr "AAAA" = lowerStr (specCompute srsExample.secret
        [base32Encode (timestamp srsExample.now), "otherdomain.com", "test"])) :=
  c4_tag_computation srsExample '=' (Or.inl rfl) "AAAA" (base32Encode (timestamp srsExample.now))
    "otherdomain.com" "test" (by decide) (base32Encode_benign _) (by decide) (by decide)
    (by decide) (checkTimestamp_fresh srsExample)

/-! ## C2: tamper sensitivity -/

/-- Case-insensitively distinct single-character replacement changes the
case-folded string. -/
theorem lowerStr_set_ne (t : String) (i : Nat) (c : Char)
    (hi : i < t.data.length)
    (hdiff : c.toLower ≠ (t.data.getD i ' ').toLower) :
    lowerStr (String.mk (t.data.set i c)) ≠ lowerStr t := by
  intro he
  have hdata : (t.data.set i c).map Char.toLower = t.data.map Char.toLower := by
    have := congrArg String.data he
    simpa [lowerStr, data_mk] using this
  rw [List.map_set] at hdata
  have h1 : ((t.data.map Char.toLower).set i c.toLower)[i]? = some c.toLower :=
    List.getElem?_set_self (by simpa using hi)
  rw [hdata, List.getElem?_map, List.getElem?_eq_getElem hi] at h1
  simp only [Option.map_some', Option.some.injEq] at h1
  rw [List.getD_eq_getElem t.data ' ' hi] at hdiff
  exact hdiff h1.symm

theorem set_benign {t : String} {i : Nat} {c : Char}
    (ht : benignSeg t.data = true)
    (hc : isFragChar c = true ∧ c ≠ '=' ∧ c ≠ '.' ∧ c ≠ '@') :
    benignSeg (t.data.set i c) = true := by
  apply benignSeg_of_forall
  intro d hd
  rcases List.mem_or_eq_of_mem_set hd with hd | rfl
  · exact benignSeg_mem ht d hd
  · exact hc


theorem benignSeg_take {A : List Char} (hA : benignSeg A = true) (i : Nat) :
    benignSeg (A.take i) = true :=
  benignSeg_of_forall fun c hc => benignSeg_mem hA c (List.mem_of_mem_take hc)

theorem benignSeg_drop {A : List Char} (hA : benignSeg A = true) (i : Nat) :
    benignSeg (A.drop i) = true :=
  benignSeg_of_forall fun c hc => benignSeg_mem hA c (List.mem_of_mem_drop hc)

/-- Replacing one character of a benign segment by a dot keeps the
surrounding local part scannable, because the character after the segment
(the field separator) legally starts the next dot-atom part. -/
theorem scan_set_dot {A : List Char} (hA : benignSeg A = true) {i : Nat} (hi : i < A.length)
    {R : List Char} (hRt : dotAtomScan isFragChar true R = true)
    (hRf : dotAtomScan isFragChar false R = true) :
    dotAtomScan isFragChar false (A.set i '.' ++ R) = true := by
  rw [List.set_eq_take_cons_drop '.' hi, List.append_assoc, List.cons_append]
  rw [dotAtomScan_append _ false (benignSeg_scan (benignSeg_take hA i))]
  simp only [dotAtomScan, if_pos rfl]
  cases hd : A.drop (i + 1) with
  | nil => simpa using hRt
  | cons a as =>
      have ha : a ∈ A := List.mem_of_mem_drop (hd ▸ List.mem_cons_self a as)
      have has : benignSeg as = true := by
        have hall := benignSeg_drop hA (i + 1)
        rw [hd] at hall
        exact benignSeg_of_forall fun c hc => benignSeg_mem hall c (List.mem_cons_of_mem a hc)
      rw [List.cons_append]
      have hstep : dotAtomScan isFragChar true (a :: (as ++ R)) =
          (isFragChar a && dotAtomScan isFragChar false (as ++ R)) := rfl
      rw [hstep, (benignSeg_mem hA a ha).1, Bool.true_and,
          dotAtomScan_append _ false (benignSeg_scan has)]
      exact hRf

/-- The scannable tail of a Form-1 local part after the tag field. -/
theorem form1_tail_scan (ts host user : String)
    (hts : benignSeg ts.data = true)
    (hhost : dotAtomScan isHostChar true host.data = true)
    (huser : dotAtomScan isFragChar true user.data = true) :
    dotAtomScan isFragChar false (ts.data ++ '=' :: (host.data ++ '=' :: user.data)) = true := by
  rw [dotAtomScan_append _ false (benignSeg_scan hts), scan_false_eq_cons,
      dotAtomScan_append _ false (hostScan_to_fragScan_false hhost), scan_false_eq_cons]
  exact fragScan_to_false huser

theorem form1_tail_no_at (Hd : List Char) (hHat : '@' ∉ Hd) (ts host user : String)
    (hts : benignSeg ts.data = true)
    (hhost : dotAtomScan isHostChar true host.data = true)
    (huser : dotAtomScan isFragChar true user.data = true) :
    '@' ∉ Hd ++ '=' :: (ts.data ++ '=' :: (host.data ++ '=' :: user.data)) := by
  intro hm
  simp only [List.mem_cons, List.mem_append] at hm
  rcases hm with h | h | h | h | h | h | h
  · exact hHat h
  · exact absurd h.symm (by decide)
  · exact benignSeg_not_mem_at hts h
  · exact absurd h.symm (by decide)
  · exact hostScan_not_mem_at hhost h
  · exact absurd h.symm (by decide)
  · exact fragScan_not_mem_at huser h

/-- `reverse_form1` generalized: the presented tag segment only needs to be
free of separators and at signs and to leave the surrounding local part
scannable (which admits a tag containing a dot). -/
theorem reverse_form1_gen (s : SRS) (f : Char) (hf : f = '=' ∨ f = '+' ∨ f = '-')
    (H ts host user : String)
    (hHeq : '=' ∉ H.data) (hHat : '@' ∉ H.data)
    (hHscan : dotAtomScan isFragChar false
      (H.data ++ '=' :: (ts.data ++ '=' :: (host.data ++ '=' :: user.data))) = true)
    (hts : benignSeg ts.data = true)
    (hhost : dotAtomScan isHostChar true host.data = true)
    (huser : dotAtomScan isFragChar true user.data = true)
    (hdom : dotAtomScan isHostChar true s.domain.data = true) :
    SRS.Reverse s ("SRS0" ++ String.mk [f] ++ H ++ sep ++ ts ++ sep ++ host ++ sep ++ user
        ++ "@" ++ s.domain) =
      match s.checkTimestamp ts with
      | .error e => .error e
      | .ok _ =>
          if lowerStr H = lowerStr (s.hash (strBytes (lowerStr (ts ++ host ++ user)))) then
            .ok (user ++ "@" ++ host)
          else .error .hashInvalid := by
  have h1 : ("SRS0" : String).data = ['S', 'R', 'S', '0'] := rfl
  have h2 : (sep : String).data = ['='] := rfl
  have h3 : ("@" : String).data = ['@'] := rfl
  have haddr : ("SRS0" ++ String.mk [f] ++ H ++ sep ++ ts ++ sep ++ host ++ sep ++ user
      ++ "@" ++ s.domain) =
      String.mk (('S' :: 'R' :: 'S' :: '0' :: f ::
        (H.data ++ '=' :: (ts.data ++ '=' :: (host.data ++ '=' :: user.data))))
        ++ '@' :: s.domain.data) := by
    apply String.ext
    simp [String.data_append, data_mk, h1, h2, h3]
  rw [haddr]
  unfold SRS.Reverse
  rw [parseEmail_ok (srs_local_scan (by decide) (by decide) hf hHscan) hdom
      (srs_local_no_at (by decide) hf (form1_tail_no_at H.data hHat ts host user hts hhost huser))]
  have hlen : ¬ (String.mk ('S' :: 'R' :: 'S' :: '0' :: f ::
      (H.data ++ '=' :: (ts.data ++ '=' :: (host.data ++ '=' :: user.data))))).length < 5 := by
    simp [mk_length]
  have hup : upperStr (strTake (String.mk ('S' :: 'R' :: 'S' :: '0' :: f ::
      (H.data ++ '=' :: (ts.data ++ '=' :: (host.data ++ '=' :: user.data))))) 5) =
      String.mk ['S', 'R', 'S', '0', f] := by
    have hfu : f.toUpper = f := by rcases hf with rfl | rfl | rfl <;> rfl
    simp [strTake, upperStr, data_mk, List.take_succ_cons, hfu]
  have hcase : String.mk ['S', 'R', 'S', '0', f] = "SRS0=" ∨
      String.mk ['S', 'R', 'S', '0', f] = "SRS0+" ∨
      String.mk ['S', 'R', 'S', '0', f] = "SRS0-" := by
    rcases hf with rfl | rfl | rfl
    · exact Or.inl rfl
    · exact Or.inr (Or.inl rfl)
    · exact Or.inr (Or.inr rfl)
  simp only [if_neg hlen, hup, if_pos hcase,
    parseSRS0_form1 _ f H ts host user hHeq (benignSeg_not_mem_eq hts)
      (hostScan_not_mem_eq hhost),
    SRS.setDefaults_checkTimestamp, SRS.setDefaults_hash]
  cases hct : s.checkTimestamp ts with
  | error e => rfl
  | ok u =>
      by_cases hcmp : lowerStr H = lowerStr (s.hash (strBytes (lowerStr (ts ++ host ++ user))))
      · rw [if_neg (not_not_intro hcmp), if_pos hcmp]
      · rw [if_pos hcmp, if_neg hcmp]


/-- C2 (amended): for a Form-1 address produced by `Forward`:
(a) replacing a single tag character by any modelled local-part character
(an atext-fragment character or a dot) other than '=' that differs
case-insensitively makes `Reverse` fail with the tag-invalid error;
(a2) replacing a tag character by '@' makes the address unparsable, so
`Reverse` fails with the not-an-SRS error instead;
(b) a case-insensitively distinct single-character change in the timestamp,
host or user field changes the canonical string the tag covers;
(c) `Reverse` on such an altered Form-1 address fails with some error
whenever the recomputed tag does not collide case-insensitively with the
presented one. -/
theorem c2_tamper_amended :
    (∀ (s : SRS) (f : Char), (f = '=' ∨ f = '+' ∨ f = '-') →
      s.firstSeparator = String.mk [f] →
      ∀ (user host : String),
      dotAtomScan isFragChar true user.data = true →
      dotAtomScan isHostChar true host.data = true →
      dotAtomScan isHostChar true s.domain.data = true →
      host ≠ s.domain →
      (user.length < 5 ∨
        (¬(upperStr (strTake user 5) = "SRS0=" ∨ upperStr (strTake user 5) = "SRS0+" ∨
           upperStr (strTake user 5) = "SRS0-") ∧
         ¬(upperStr (strTake user 5) = "SRS1=" ∨ upperStr (strTake user 5) = "SRS1+" ∨
           upperStr (strTake user 5) = "SRS1-"))) →
      ∀ (i : Nat) (c : Char), i < 4 →
      ((isFragChar c = true ∨ c = '.') ∧ c ≠ '=' ∧ c ≠ '@') →
      c.toLower ≠ (((s.hash (strBytes (lowerStr
        (base32Encode (timestamp s.now) ++ host ++ user)))).data.getD i ' ').toLower) →
      SRS.Forward s (user ++ "@" ++ host) =
        .ok ("SRS0" ++ String.mk [f] ++
          s.hash (strBytes (lowerStr (base32Encode (timestamp s.now) ++ host ++ user))) ++
          sep ++ base32Encode (timestamp s.now) ++ sep ++ host ++ sep ++ user
          ++ "@" ++ s.domain) ∧
      SRS.Reverse s ("SRS0" ++ String.mk [f] ++
          String.mk ((s.hash (strBytes (lowerStr
            (base32Encode (timestamp s.now) ++ host ++ user)))).data.set i c) ++
          sep ++ base32Encode (timestamp s.now) ++ sep ++ host ++ sep ++ user
          ++ "@" ++ s.domain) = .error .hashInvalid) ∧
    (∀ (s : SRS) (f : Char), (f = '=' ∨ f = '+' ∨ f = '-') →
      ∀ (ts host user : String),
      benignSeg ts.data = true →
      dotAtomScan isHostChar true host.data = true →
      dotAtomScan isFragChar true user.data = true →
      ∀ (H : String), benignSeg H.data = true →
      ∀ i, i < H.data.length →
      SRS.Reverse s ("SRS0" ++ String.mk [f] ++ String.mk (H.data.set i '@') ++ sep ++ ts ++
        sep ++ host ++ sep ++ user ++ "@" ++ s.domain) = .error .noSRS) ∧
    (∀ (t : String) (i : Nat) (c : Char), i < t.data.length →
      c.toLower ≠ (t.data.getD i ' ').toLower →
      lowerStr (String.mk (t.data.set i c)) ≠ lowerStr t) ∧
    (∀ (s : SRS) (f : Char), (f = '=' ∨ f = '+' ∨ f = '-') →
      ∀ (H ts host user : String),
      benignSeg H.data = true → benignSeg ts.data = true →
      dotAtomScan isHostChar true host.data = true →
      dotAtomScan isFragChar true user.data = true →
      dotAtomScan isHostChar true s.domain.data = true →
      lowerStr H ≠ lowerStr (s.hash (strBytes (lowerStr (ts ++ host ++ user)))) →
      ∃ e, SRS.Reverse s ("SRS0" ++ String.mk [f] ++ H ++ sep ++ ts ++ sep ++ host ++ sep
        ++ user ++ "@" ++ s.domain) = .error e) := by
  refine ⟨?_, ?_, lowerStr_set_ne, ?_⟩
  · intro s f hf hfs' user host huser hhost hdom hne hclass i c hi hc hdiff
    have hfs : s.firstSeparator = "=" ∨ s.firstSeparator = "+" ∨ s.firstSeparator = "-" := by
      rcases hf with rfl | rfl | rfl
      · exact Or.inl hfs'
      · exact Or.inr (Or.inl hfs')
      · exact Or.inr (Or.inr hfs')
    constructor
    · rw [forward_unwrapped s hfs user host huser hhost hne hclass, hfs']
    · have hHben := hash_benign s
        (strBytes (lowerStr (base32Encode (timestamp s.now) ++ host ++ user)))
      have hlen4 := hash_length s
        (strBytes (lowerStr (base32Encode (timestamp s.now) ++ host ++ user)))
      have htsben := base32Encode_benign (timestamp s.now)
      have hT := form1_tail_scan (base32Encode (timestamp s.now)) host user htsben hhost huser
      have hRf : dotAtomScan isFragChar false
          ('=' :: ((base32Encode (timestamp s.now)).data ++ '=' ::
            (host.data ++ '=' :: user.data))) = true := by
        rw [scan_false_eq_cons]
        exact hT
      have hRt : dotAtomScan isFragChar true
          ('=' :: ((base32Encode (timestamp s.now)).data ++ '=' ::
            (host.data ++ '=' :: user.data))) = true := by
        have hstep : dotAtomScan isFragChar true
            ('=' :: ((base32Encode (timestamp s.now)).data ++ '=' ::
              (host.data ++ '=' :: user.data))) =
            (isFragChar '=' && dotAtomScan isFragChar false
              ((base32Encode (timestamp s.now)).data ++ '=' ::
                (host.data ++ '=' :: user.data))) := rfl
        rw [hstep, hT]
        decide
      have hset_eq : '=' ∉ ((s.hash (strBytes (lowerStr
          (base32Encode (timestamp s.now) ++ host ++ user)))).data.set i c) := by
        intro hm
        rcases List.mem_or_eq_of_mem_set hm with h | h
        · exact benignSeg_not_mem_eq hHben h
        · exact hc.2.1 h.symm
      have hset_at : '@' ∉ ((s.hash (strBytes (lowerStr
          (base32Encode (timestamp s.now) ++ host ++ user)))).data.set i c) := by
        intro hm
        rcases List.mem_or_eq_of_mem_set hm with h | h
        · exact benignSeg_not_mem_at hHben h
        · exact hc.2.2 h.symm
      have hscan : dotAtomScan isFragChar false
          (((s.hash (strBytes (lowerStr
            (base32Encode (timestamp s.now) ++ host ++ user)))).data.set i c) ++ '=' ::
            ((base32Encode (timestamp s.now)).data ++ '=' ::
              (host.data ++ '=' :: user.data))) = true := by
        by_cases hdot : c = '.'
        · subst hdot
          exact scan_set_dot hHben (by omega) hRt hRf
        · have hcfrag : isFragChar c = true := by
            rcases hc.1 with h | h
            · exact h
            · exact absurd h hdot
          have hben' := set_benign (i := i) hHben ⟨hcfrag, hc.2.1, hdot, hc.2.2⟩
          rw [dotAtomScan_append _ false (benignSeg_scan hben')]
          exact hRf
      rw [reverse_form1_gen s f hf
          (String.mk ((s.hash (strBytes (lowerStr
            (base32Encode (timestamp s.now) ++ host ++ user)))).data.set i c))
          (base32Encode (timestamp s.now)) host user hset_eq hset_at hscan htsben hhost huser
          hdom]
      rw [checkTimestamp_fresh]
      rw [if_neg (lowerStr_set_ne _ i c (by omega) hdiff)]
  · intro s f hf ts host user hts hhost huser H hHben i hi
    have h1 : ("SRS0" : String).data = ['S', 'R', 'S', '0'] := rfl
    have h2 : (sep : String).data = ['='] := rfl
    have h3 : ("@" : String).data = ['@'] := rfl
    have hsplit := List.set_eq_take_cons_drop '@' hi
    have haddr : ("SRS0" ++ String.mk [f] ++ String.mk (H.data.set i '@') ++ sep ++ ts ++
        sep ++ host ++ sep ++ user ++ "@" ++ s.domain) =
        String.mk (('S' :: 'R' :: 'S' :: '0' :: f :: H.data.take i) ++ '@' ::
          (H.data.drop (i + 1) ++ '=' :: (ts.data ++ '=' ::
            (host.data ++ '=' :: (user.data ++ '@' :: s.domain.data))))) := by
      apply String.ext
      simp [String.data_append, data_mk, h1, h2, h3, hsplit]
    have hPat : '@' ∉ ('S' :: 'R' :: 'S' :: '0' :: f :: H.data.take i) := by
      intro hm
      simp only [List.mem_cons] at hm
      rcases hm with h | h | h | h | h | h
      · exact absurd h.symm (by decide)
      · exact absurd h.symm (by decide)
      · exact absurd h.symm (by decide)
      · exact absurd h.symm (by decide)
      · rcases hf with rfl | rfl | rfl <;> exact absurd h.symm (by decide)
      · exact benignSeg_not_mem_at (benignSeg_take hHben i) h
    have hpe : parseEmail (String.mk (('S' :: 'R' :: 'S' :: '0' :: f :: H.data.take i) ++ '@' ::
        (H.data.drop (i + 1) ++ '=' :: (ts.data ++ '=' ::
          (host.data ++ '=' :: (user.data ++ '@' :: s.domain.data)))))) =
        .error .badAddressFormat := by
      unfold parseEmail
      have hmem : '@' ∈ (String.mk (('S' :: 'R' :: 'S' :: '0' :: f :: H.data.take i) ++ '@' ::
          (H.data.drop (i + 1) ++ '=' :: (ts.data ++ '=' ::
            (host.data ++ '=' :: (user.data ++ '@' :: s.domain.data)))))).data := by
        simp [data_mk]
      rw [if_neg (by simp [List.elem_eq_true_of_mem hmem])]
      rw [data_mk, splitFirst_append _ hPat]
      dsimp only
      rw [if_neg]
      rintro ⟨-, hd⟩
      have hde : '=' ∈ H.data.drop (i + 1) ++ '=' :: (ts.data ++ '=' ::
          (host.data ++ '=' :: (user.data ++ '@' :: s.domain.data))) :=
        List.mem_append.mpr (Or.inr (List.mem_cons_self _ _))
      exact hostScan_not_mem_eq hd hde
    rw [haddr]
    unfold SRS.Reverse
    rw [hpe]
  · intro s f hf H ts host user hH hts hhost huser hdom hcoll
    rw [reverse_form1 s f hf H ts host user hH hts hhost huser hdom]
    cases hct : s.checkTimestamp ts with
    | error e => exact ⟨e, rfl⟩
    | ok u => exact ⟨.hashInvalid, by rw [if_neg hcoll]⟩

theorem c2_tamper_counterexample :
    SRS.Forward srsExample "test@otherdomain.com" =
      .ok "SRS0=w8fc=4U=otherdomain.com=test@example.com" ∧
    (List.zip "SRS0=w8fc=4U=otherdomain.com=test@example.com".data
              "SRS0=W8fc=4U=otherdomain.com=test@example.com".data).countP
        (fun p => !(p.1 == p.2)) = 1 ∧
    SRS.Reverse srsExample "SRS0=W8fc=4U=otherdomain.com=test@example.com" =
      .ok "test@otherdomain.com" := by
  refine ⟨by rfl, by decide, by rfl⟩

theorem c2_tamper_amended_witness :
    (SRS.Forward srsExample ("test" ++ "@" ++ "otherdomain.com") =
        .ok ("SRS0" ++ String.mk ['='] ++
          srsExample.hash (strBytes (lowerStr
            (base32Encode (timestamp srsExample.now) ++ "otherdomain.com" ++ "test"))) ++
          sep ++ base32Encode (timestamp srsExample.now) ++ sep ++ "otherdomain.com" ++ sep
          ++ "test" ++ "@" ++ srsExample.domain) ∧
      SRS.Reverse srsExample ("SRS0" ++ String.mk ['='] ++
          String.mk ((srsExample.hash (strBytes (lowerStr
            (base32Encode (timestamp srsExample.now) ++ "otherdomain.com"
              ++ "test")))).data.set 0 'x') ++
          sep ++ base32Encode (timestamp srsExample.now) ++ sep ++ "otherdomain.com" ++ sep
          ++ "test" ++ "@" ++ srsExample.domain) = .error .hashInvalid) ∧
    (SRS.Forward srsExample ("test" ++ "@" ++ "otherdomain.com") =
        .ok ("SRS0" ++ String.mk ['='] ++
          srsExample.hash (strBytes (lowerStr
            (base32Encode (timestamp srsExample.now) ++ "otherdomain.com" ++ "test"))) ++
          sep ++ base32Encode (timestamp srsExample.now) ++ sep ++ "otherdomain.com" ++ sep
          ++ "test" ++ "@" ++ srsExample.domain) ∧
      SRS.Reverse srsExample ("SRS0" ++ String.mk ['='] ++
          String.mk ((srsExample.hash (strBytes (lowerStr
            (base32Encode (timestamp srsExample.now) ++ "otherdomain.com"
              ++ "test")))).data.set 0 '.') ++
          sep ++ base32Encode (timestamp srsExample.now) ++ sep ++ "otherdomain.com" ++ sep
          ++ "test" ++ "@" ++ srsExample.domain) = .error .hashInvalid) ∧
    SRS.Reverse srsExample ("SRS0" ++ String.mk ['='] ++
        String.mk (("AAAA" : String).data.set 0 '@') ++ sep ++ "4U" ++ sep ++
        "otherdomain.com" ++ sep ++ "test" ++ "@" ++ srsExample.domain) = .error .noSRS ∧
    lowerStr (String.mk ("abc".data.set 0 'z')) ≠ lowerStr "abc" ∧
    (∃ e, SRS.Reverse srsExample ("SRS0" ++ String.mk ['='] ++ "AAAA" ++ sep ++ "4U" ++ sep ++
        "otherdomain.com" ++ sep ++ "test" ++ "@" ++ srsExample.domain) = .error e) :=
  ⟨c2_tamper_amended.1 srsExample '=' (Or.inl rfl) rfl "test" "otherdomain.com"
      (by decide) (by decide) (by decide) (by decide) (Or.inl (by decide))
      0 'x' (by decide) (by decide) (by decide),
   c2_tamper_amended.1 srsExample '=' (Or.inl rfl) rfl "test" "otherdomain.com"
      (by decide) (by decide) (by decide) (by decide) (Or.inl (by decide))
      0 '.' (by decide) (by decide) (by decide),
   c2_tamper_amended.2.1 srsExample '=' (Or.inl rfl) "4U" "otherdomain.com" "test"
      (by decide) (by decide) (by decide) "AAAA" (by decide) 0 (by decide),
   c2_tamper_amended.2.2.1 "abc" 0 'z' (by decide) (by decide),
   c2_tamper_amended.2.2.2 srsExample '=' (Or.inl rfl) "AAAA" "4U" "otherdomain.com" "test"
      (by decide) (by decide) (by decide) (by decide) (by decide) (by decide)⟩

/-! ## C5: the Form-2 double-separator grammar -/

/-- A double separator ("==", "=+" or "=-") occurs at position `i`. -/
def dsepPat (cs : List Char) (i : Nat) : Prop :=
  i + 1 < cs.length ∧ cs.getD i ' ' = '=' ∧
    (cs.getD (i + 1) ' ' = '=' ∨ cs.getD (i + 1) ' ' = '+' ∨ cs.getD (i + 1) ' ' = '-')

instance (cs : List Char) (i : Nat) : Decidable (dsepPat cs i) := by
  unfold dsepPat
  infer_instance

theorem dsepPat_cons {c : Char} {l : List Char} {i : Nat} :
    dsepPat (c :: l) (i + 1) ↔ dsepPat l i := by
  unfold dsepPat
  rw [List.getD_cons_succ, List.getD_cons_succ, List.length_cons,
      Nat.add_lt_add_iff_right]

theorem findDoubleSep_none : ∀ (cs : List Char), (∀ i, ¬ dsepPat cs i) →
    findDoubleSep cs = none := by
  intro cs
  induction cs with
  | nil => intro _; rfl
  | cons c tail ih =>
      intro h
      cases tail with
      | nil => rfl
      | cons d rest =>
          rw [findDoubleSep]
          rw [if_neg]
          · rw [ih fun i hi => h (i + 1) (dsepPat_cons.mpr hi)]
          · intro hcond
            exact h 0 ⟨by simp, by simpa using hcond.1, by simpa using hcond.2⟩

theorem findDoubleSep_some : ∀ (cs : List Char) (i : Nat), dsepPat cs i →
    (∀ j, j < i → ¬ dsepPat cs j) →
    findDoubleSep cs = some (cs.take i, cs.getD (i + 1) ' ', cs.drop (i + 2)) := by
  intro cs
  induction cs with
  | nil => intro i hpat _; exact absurd hpat.1 (by simp)
  | cons c tail ih =>
      intro i hpat hleft
      cases tail with
      | nil =>
          exact absurd hpat.1 (by simp)
      | cons d rest =>
          by_cases hcond : c = '=' ∧ (d = '=' ∨ d = '+' ∨ d = '-')
          · have h0 : dsepPat (c :: d :: rest) 0 :=
              ⟨by simp, by simpa using hcond.1, by simpa using hcond.2⟩
            have hi0 : i = 0 := by
              by_contra hne
              exact hleft 0 (Nat.pos_of_ne_zero hne) h0
            subst hi0
            rw [findDoubleSep, if_pos hcond]
            rfl
          · have hne0 : i ≠ 0 := by
              intro h0
              subst h0
              exact hcond ⟨by simpa using hpat.2.1, by simpa using hpat.2.2⟩
            obtain ⟨i', rfl⟩ := Nat.exists_eq_succ_of_ne_zero hne0
            have hpat' : dsepPat (d :: rest) i' := dsepPat_cons.mp hpat
            have hleft' : ∀ j, j < i' → ¬ dsepPat (d :: rest) j := fun j hj hp =>
              hleft (j + 1) (by omega) (dsepPat_cons.mpr hp)
            rw [findDoubleSep, if_neg hcond, ih i' hpat' hleft']
            simp [List.take_succ_cons, List.getD_cons_succ, List.drop_succ_cons]

theorem mk_eq_empty_iff (l : List Char) : String.mk l = "" ↔ l = [] := by
  constructor
  · intro h
    have := congrArg String.data h
    simpa [data_mk] using this
  · rintro rfl
    rfl

/-- C5: parsing a Form-2 local part splits at the leftmost double separator
"==", "=+" or "=-"; with no double separator parsing fails with the
no-user-in-SRS1 error; when the part before the separator has eight or fewer
characters parsing fails with the tag-too-short error; otherwise it
succeeds, the opaque remainder being the inner separator character followed
by the text after the double separator. -/
theorem c5_parseSRS1_grammar :
    (∀ (sArg : SRS) (locl : String),
      (∀ i, i < locl.data.length → ¬ dsepPat locl.data i) →
      SRS.parseSRS1 sArg locl = .error .noUserInSRS1) ∧
    (∀ (sArg : SRS) (locl : String) (i : Nat), dsepPat locl.data i →
      (∀ j, j < i → ¬ dsepPat locl.data j) → 1 ≤ i → i ≤ 8 →
      SRS.parseSRS1 sArg locl = .error .hashTooShort) ∧
    (∀ (sArg : SRS) (locl : String) (i : Nat), dsepPat locl.data i →
      (∀ j, j < i → ¬ dsepPat locl.data j) → 8 < i →
      ∃ r, SRS.parseSRS1 sArg locl =
        .ok (String.mk (locl.data.getD (i + 1) ' ' :: locl.data.drop (i + 2)), r)) := by
  refine ⟨?_, ?_, ?_⟩
  · intro sArg locl h
    have hall : ∀ i, ¬ dsepPat locl.data i := by
      intro i
      by_cases hi : i < locl.data.length
      · exact h i hi
      · exact fun hp => absurd hp.1 (by omega)
    unfold SRS.parseSRS1
    rw [findDoubleSep_none locl.data hall]
    rfl
  · intro sArg locl i hpat hleft hi1 hi8
    unfold SRS.parseSRS1
    rw [findDoubleSep_some locl.data i hpat hleft]
    have hnonempty : locl.data.take i ≠ [] := by
      intro h
      rw [List.take_eq_nil_iff] at h
      rcases h with h | h
      · omega
      · rw [h] at hpat
        exact absurd hpat.1 (by simp)
    rw [if_neg (fun hand => hnonempty ((mk_eq_empty_iff _).mp hand.1))]
    rw [if_pos]
    have hil : i ≤ locl.data.length := by
      have := hpat.1
      omega
    rw [mk_length, List.length_take, Nat.min_eq_left hil]
    exact hi8
  · intro sArg locl i hpat hleft hi8
    unfold SRS.parseSRS1
    rw [findDoubleSep_some locl.data i hpat hleft]
    have hnonempty : locl.data.take i ≠ [] := by
      intro h
      rw [List.take_eq_nil_iff] at h
      rcases h with h | h
      · omega
      · rw [h] at hpat
        exact absurd hpat.1 (by simp)
    rw [if_neg (fun hand => hnonempty ((mk_eq_empty_iff _).mp hand.1))]
    rw [if_neg]
    · set parts := splitN (String.mk (locl.data.drop (i + 2))) '=' 4 with hparts
      by_cases hlt : parts.length < 4
      · rw [if_pos hlt]
        exact ⟨_, rfl⟩
      · rw [if_neg hlt]
        exact ⟨_, rfl⟩
    · have hil : i ≤ locl.data.length := by
        have := hpat.1
        omega
      rw [mk_length, List.length_take, Nat.min_eq_left hil]
      omega

theorem c5_parseSRS1_grammar_witness :
    SRS.parseSRS1 srsExample "SRS1=wtfisthis=milos" = .error .noUserInSRS1 ∧
    SRS.parseSRS1 srsExample "SRS1===" = .error .hashTooShort ∧
    (∃ r, SRS.parseSRS1 srsExample "SRS1=AAAA=domain.net==rest" =
      .ok (String.mk (("SRS1=AAAA=domain.net==rest" : String).data.getD 21 ' ' ::
        ("SRS1=AAAA=domain.net==rest" : String).data.drop 22), r)) :=
  ⟨c5_parseSRS1_grammar.1 srsExample "SRS1=wtfisthis=milos" (by decide),
   c5_parseSRS1_grammar.2.1 srsExample "SRS1===" 4 (by decide) (by decide) (by decide) (by decide),
   c5_parseSRS1_grammar.2.2 srsExample "SRS1=AAAA=domain.net==rest" 20
     (by decide) (by decide) (by decide)⟩

/-! ## C6: rewrapping a foreign Form-2 address -/

theorem splitN3_form2 (tag host1 opq : String)
    (htag : '=' ∉ tag.data) (hhost1 : '=' ∉ host1.data) :
    splitN (String.mk (tag.data ++ '=' :: (host1.data ++ '=' :: opq.data))) '=' 3 =
      [tag, host1, opq] := by
  unfold splitN
  rw [data_mk]
  rw [show (3 - 1 : Nat) = 1 + 1 from rfl, splitNAux_cons 1 _ htag,
      show (1 : Nat) = 0 + 1 from rfl, splitNAux_cons 0 _ hhost1]
  simp [mk_data, splitNAux]

/-- C6: `Forward` on an address with a foreign Form-2 local part emits a new
SRS1 envelope whose tag is recomputed over `(host1, opq)` under this
relay's secret; neither the previous relay's tag, its separator, nor the
source host appear in the output, so two inputs differing only in the
foreign tag produce identical envelopes. -/
theorem c6_rewrap_discards_tag (s : SRS)
    (hfs : s.firstSeparator = "=" ∨ s.firstSeparator = "+" ∨ s.firstSeparator = "-")
    (f : Char) (hf : f = '=' ∨ f = '+' ∨ f = '-')
    (tag host1 opq srcHost : String)
    (htag : benignSeg tag.data = true)
    (hhost1 : dotAtomScan isHostChar true host1.data = true)
    (hopq : dotAtomScan isFragChar false opq.data = true)
    (hsrc : dotAtomScan isHostChar true srcHost.data = true)
    (hne : srcHost ≠ s.domain) :
    SRS.Forward s ("SRS1" ++ String.mk [f] ++ tag ++ sep ++ host1 ++ sep ++ opq
        ++ "@" ++ srcHost) =
      .ok ("SRS1" ++ s.firstSeparator ++ s.hash (strBytes (lowerStr (host1 ++ opq))) ++
           sep ++ host1 ++ sep ++ opq ++ "@" ++ s.domain) := by
  have hopq_at : '@' ∉ opq.data := by
    intro hm
    rcases dotAtomScan_mem false hopq _ hm with h | h
    · exact absurd rfl (isFragChar_ne_at h)
    · exact absurd h (by decide)
  have hsuf := hasSuffixAt_append_host
    (u := "SRS1" ++ String.mk [f] ++ tag ++ sep ++ host1 ++ sep ++ opq) hsrc
  unfold SRS.Forward
  rw [SRS.setDefaults_eq_self hfs]
  simp only [hsuf, Bool.false_eq_true, if_false]
  have h1 : ("SRS1" : String).data = ['S', 'R', 'S', '1'] := rfl
  have h2 : (sep : String).data = ['='] := rfl
  have haddr : ("SRS1" ++ String.mk [f] ++ tag ++ sep ++ host1 ++ sep ++ opq
      ++ "@" ++ srcHost) =
      String.mk (('S' :: 'R' :: 'S' :: '1' :: f ::
        (tag.data ++ '=' :: (host1.data ++ '=' :: opq.data))) ++ '@' :: srcHost.data) := by
    apply String.ext
    simp [String.data_append, data_mk, h1, h2]
  rw [haddr, parseEmail_ok
    (srs_local_scan (by decide) (by decide) hf
      (srs_tail2_scan (benignSeg_scan htag) hhost1 hopq))
    hsrc
    (srs_local_no_at (by decide) hf
      (srs_tail2_no_at (benignSeg_not_mem_at htag) hhost1 hopq_at))]
  simp only [Bool.false_eq_true, if_false]
  rw [if_neg (by rw [mk_data]; exact hne)]
  have hlen : ¬ (String.mk ('S' :: 'R' :: 'S' :: '1' :: f ::
      (tag.data ++ '=' :: (host1.data ++ '=' :: opq.data)))).length < 5 := by
    simp [mk_length]
  rw [if_neg hlen]
  have hup : upperStr (strTake (String.mk ('S' :: 'R' :: 'S' :: '1' :: f ::
      (tag.data ++ '=' :: (host1.data ++ '=' :: opq.data)))) 5) =
      String.mk ['S', 'R', 'S', '1', f] := by
    have hfu : f.toUpper = f := by rcases hf with rfl | rfl | rfl <;> rfl
    simp [strTake, upperStr, data_mk, List.take_succ_cons, hfu]
  rw [hup]
  have hnot0 : ¬ (String.mk ['S', 'R', 'S', '1', f] = "SRS0=" ∨
      String.mk ['S', 'R', 'S', '1', f] = "SRS0+" ∨
      String.mk ['S', 'R', 'S', '1', f] = "SRS0-") := by
    rcases hf with rfl | rfl | rfl <;> decide
  have hyes1 : String.mk ['S', 'R', 'S', '1', f] = "SRS1=" ∨
      String.mk ['S', 'R', 'S', '1', f] = "SRS1+" ∨
      String.mk ['S', 'R', 'S', '1', f] = "SRS1-" := by
    rcases hf with rfl | rfl | rfl
    · exact Or.inl rfl
    · exact Or.inr (Or.inl rfl)
    · exact Or.inr (Or.inr rfl)
  rw [if_neg hnot0, if_pos hyes1]
  unfold SRS.rewriteSRS1
  have hdrop : strDrop (String.mk ('S' :: 'R' :: 'S' :: '1' :: f ::
      (tag.data ++ '=' :: (host1.data ++ '=' :: opq.data)))) 5 =
      String.mk (tag.data ++ '=' :: (host1.data ++ '=' :: opq.data)) := by
    simp [strDrop, data_mk, List.drop_succ_cons]
  rw [hdrop, splitN3_form2 tag host1 opq (benignSeg_not_mem_eq htag)
      (hostScan_not_mem_eq hhost1)]
  rw [if_neg (show ¬ ([tag, host1, opq] : List String).length ≠ 3 by simp)]
  simp [List.getD, mk_data]

theorem c6_rewrap_discards_tag_witness :
    SRS.Forward srsExample ("SRS1" ++ String.mk ['='] ++ "AAAA" ++ sep ++ "domain.net" ++ sep ++
        "=8Zzm=IS=netmark.rs=milos" ++ "@" ++ "domain.com") =
      .ok ("SRS1" ++ srsExample.firstSeparator ++
           srsExample.hash (strBytes (lowerStr ("domain.net" ++ "=8Zzm=IS=netmark.rs=milos"))) ++
           sep ++ "domain.net" ++ sep ++ "=8Zzm=IS=netmark.rs=milos" ++ "@" ++
           srsExample.domain) :=
  c6_rewrap_discards_tag srsExample (Or.inl rfl) '=' (Or.inl rfl) "AAAA" "domain.net"
    "=8Zzm=IS=netmark.rs=milos" "domain.com" (by decide) (by decide) (by decide) (by decide)
    (by decide)

/-! ## C7: reversing a Form-2 address -/

theorem findDoubleSep_here (d : Char) (rest : List Char) (hd : d = '=' ∨ d = '+' ∨ d = '-') :
    findDoubleSep ('=' :: d :: rest) = some ([], d, rest) := by
  rw [findDoubleSep, if_pos ⟨rfl, hd⟩]

theorem findDoubleSep_cons (c : Char) (l : List Char)
    (h : ¬(c = '=' ∧ (l.getD 0 ' ' = '=' ∨ l.getD 0 ' ' = '+' ∨ l.getD 0 ' ' = '-'))) :
    findDoubleSep (c :: l) = (findDoubleSep l).map fun p => (c :: p.1, p.2.1, p.2.2) := by
  cases l with
  | nil => rfl
  | cons d rest =>
      rw [findDoubleSep, if_neg (by simpa using h)]
      cases findDoubleSep (d :: rest) with
      | none => rfl
      | some p =>
          obtain ⟨a, x, b⟩ := p
          rfl

theorem findDoubleSep_append_no_eq (A B : List Char) (hA : '=' ∉ A) :
    findDoubleSep (A ++ B) = (findDoubleSep B).map fun p => (A ++ p.1, p.2.1, p.2.2) := by
  induction A with
  | nil =>
      cases hB : findDoubleSep B with
      | none => rw [List.nil_append, hB]; rfl
      | some p =>
          obtain ⟨a, x, b⟩ := p
          rw [List.nil_append, hB]
          rfl
  | cons c A' ih =>
      simp only [List.mem_cons, not_or] at hA
      rw [List.cons_append, findDoubleSep_cons c (A' ++ B) (fun hand => hA.1 hand.1.symm),
          ih hA.2]
      cases findDoubleSep B with
      | none => rfl
      | some p =>
          obtain ⟨a, x, b⟩ := p
          rfl

theorem findDoubleSep_form2 (f : Char) (tag1 host1 inner : String) (sepc : Char)
    (hsepc : sepc = '=' ∨ sepc = '+' ∨ sepc = '-')
    (htag1ne : tag1.data ≠ [])
    (htag1head : ¬(tag1.data.getD 0 ' ' = '=' ∨ tag1.data.getD 0 ' ' = '+' ∨
      tag1.data.getD 0 ' ' = '-'))
    (htag1eq : '=' ∉ tag1.data)
    (hhost1 : dotAtomScan isHostChar true host1.data = true)
    (hhost1head : host1.data.getD 0 ' ' ≠ '-') :
    findDoubleSep ('S' :: 'R' :: 'S' :: '1' :: f ::
        (tag1.data ++ '=' :: (host1.data ++ '=' :: (sepc :: inner.data)))) =
      some ('S' :: 'R' :: 'S' :: '1' :: f :: (tag1.data ++ '=' :: host1.data),
            sepc, inner.data) := by
  have hhost1ne : host1.data ≠ [] := dotAtomScan_ne_nil hhost1
  have htaghead : (tag1.data ++ '=' :: (host1.data ++ '=' :: (sepc :: inner.data))).getD 0 ' ' =
      tag1.data.getD 0 ' ' := by
    cases htag : tag1.data with
    | nil => exact absurd htag htag1ne
    | cons a l => rfl
  have hhosthead : (host1.data ++ '=' :: (sepc :: inner.data)).getD 0 ' ' =
      host1.data.getD 0 ' ' := by
    cases hh : host1.data with
    | nil => exact absurd hh hhost1ne
    | cons a l => rfl
  have hhost1head' : ¬(host1.data.getD 0 ' ' = '=' ∨ host1.data.getD 0 ' ' = '+' ∨
      host1.data.getD 0 ' ' = '-') := by
    intro hset
    cases hh : host1.data with
    | nil => exact absurd hh hhost1ne
    | cons a l =>
        have ha : a ∈ host1.data := by rw [hh]; simp
        rcases dotAtomScan_mem true hhost1 a ha with hfa | hfa
        · rw [hh] at hset
          simp only [List.getD_cons_zero] at hset
          rcases hset with h | h | h
          · subst h; revert hfa; decide
          · subst h; revert hfa; decide
          · rw [hh] at hhost1head
            exact hhost1head h
        · rw [hh] at hset
          simp only [List.getD_cons_zero] at hset
          subst hfa
          rcases hset with h | h | h <;> exact absurd h (by decide)
  rw [findDoubleSep_cons 'S' _ (fun hand => absurd hand.1 (by decide)),
      findDoubleSep_cons 'R' _ (fun hand => absurd hand.1 (by decide)),
      findDoubleSep_cons 'S' _ (fun hand => absurd hand.1 (by decide)),
      findDoubleSep_cons '1' _ (fun hand => absurd hand.1 (by decide)),
      findDoubleSep_cons f _ (fun hand => htag1head (htaghead ▸ hand.2)),
      findDoubleSep_append_no_eq tag1.data _ htag1eq,
      findDoubleSep_cons '=' _ (fun hand => hhost1head' (hhosthead ▸ hand.2)),
      findDoubleSep_append_no_eq host1.data _ (hostScan_not_mem_eq hhost1),
      findDoubleSep_here sepc inner.data hsepc]
  simp

theorem parseSRS1_form2 (sArg : SRS) (f : Char) (tag1 host1 inner : String) (sepc : Char)
    (hsepc : sepc = '=' ∨ sepc = '+' ∨ sepc = '-')
    (htag1ne : tag1.data ≠ [])
    (htag1head : ¬(tag1.data.getD 0 ' ' = '=' ∨ tag1.data.getD 0 ' ' = '+' ∨
      tag1.data.getD 0 ' ' = '-'))
    (htag1eq : '=' ∉ tag1.data)
    (hhost1 : dotAtomScan isHostChar true host1.data = true)
    (hhost1head : host1.data.getD 0 ' ' ≠ '-')
    (hlen : 2 < tag1.data.length + host1.data.length) :
    ∃ r, SRS.parseSRS1 sArg (String.mk ('S' :: 'R' :: 'S' :: '1' :: f ::
        (tag1.data ++ '=' :: (host1.data ++ '=' :: (sepc :: inner.data))))) =
      .ok (String.mk (sepc :: inner.data), tag1, host1, r) := by
  unfold SRS.parseSRS1
  rw [data_mk, findDoubleSep_form2 f tag1 host1 inner sepc hsepc htag1ne htag1head htag1eq
      hhost1 hhost1head]
  rw [if_neg (fun hand => List.cons_ne_nil _ _ ((mk_eq_empty_iff _).mp hand.1))]
  rw [if_neg (by
    rw [mk_length]
    simp only [List.length_cons, List.length_append]
    omega)]
  have hdrop : strDrop (String.mk ('S' :: 'R' :: 'S' :: '1' :: f ::
      (tag1.data ++ '=' :: host1.data))) 5 = String.mk (tag1.data ++ '=' :: host1.data) := by
    simp [strDrop, data_mk, List.drop_succ_cons]
  rw [hdrop]
  have hsplit2 : splitN (String.mk (tag1.data ++ '=' :: host1.data)) '=' 2 = [tag1, host1] := by
    unfold splitN
    rw [data_mk, show (2 - 1 : Nat) = 0 + 1 from rfl, splitNAux_cons 0 _ htag1eq]
    simp [mk_data, splitNAux]
  rw [hsplit2]
  dsimp only
  have hlocal : String.mk [sepc] ++ String.mk inner.data = String.mk (sepc :: inner.data) := rfl
  rw [hlocal]
  simp only [List.length_cons, List.length_nil, List.getD_cons_zero, List.getD_cons_succ,
    if_true, reduceIte]
  by_cases hlt : (splitN (String.mk inner.data) '=' 4).length < 4
  · rw [if_pos hlt]
    exact ⟨_, rfl⟩
  · rw [if_neg hlt]
    exact ⟨_, rfl⟩

/-- C7: `Reverse` on a Form-2 address parses `(tag, host, innerOpaquePart)`,
verifies only the outer tag over `[host, innerOpaquePart]` (the inner
envelope is arbitrary and never inspected), and on success returns `SRS0`
followed by the opaque part (with its leading separator) at the previous
relay's host — stripping exactly one layer. -/
theorem c7_reverse_form2 (s : SRS) (f : Char)
    (hf : f = '=' ∨ f = '+' ∨ f = '-')
    (tag1 host1 inner : String) (sepc : Char)
    (hsepc : sepc = '=' ∨ sepc = '+' ∨ sepc = '-')
    (htag1 : benignSeg tag1.data = true)
    (htag1ne : tag1.data ≠ [])
    (htag1head : ¬(tag1.data.getD 0 ' ' = '=' ∨ tag1.data.getD 0 ' ' = '+' ∨
      tag1.data.getD 0 ' ' = '-'))
    (hhost1 : dotAtomScan isHostChar true host1.data = true)
    (hhost1head : host1.data.getD 0 ' ' ≠ '-')
    (hinner : dotAtomScan isFragChar false inner.data = true)
    (hdom : dotAtomScan isHostChar true s.domain.data = true)
    (hlen : 2 < tag1.data.length + host1.data.length) :
    SRS.Reverse s ("SRS1" ++ String.mk [f] ++ tag1 ++ sep ++ host1 ++ sep ++
        String.mk [sepc] ++ inner ++ "@" ++ s.domain) =
      if lowerStr tag1 =
          lowerStr (s.hash (strBytes (lowerStr (host1 ++ (String.mk [sepc] ++ inner))))) then
        .ok ("SRS0" ++ (String.mk [sepc] ++ inner) ++ "@" ++ host1)
      else .error .hashInvalid := by
  have hsep_frag : isFragChar sepc = true := by rcases hsepc with rfl | rfl | rfl <;> decide
  have hsep_dot : sepc ≠ '.' := by rcases hsepc with rfl | rfl | rfl <;> decide
  have hsep_at : sepc ≠ '@' := by rcases hsepc with rfl | rfl | rfl <;> decide
  have hinner_at : '@' ∉ inner.data := by
    intro hm
    rcases dotAtomScan_mem false hinner _ hm with h | h
    · exact absurd rfl (isFragChar_ne_at h)
    · exact absurd h (by decide)
  have hC : dotAtomScan isFragChar false (sepc :: inner.data) = true := by
    have hne : sepc ≠ '.' := hsep_dot
    simp [dotAtomScan, hne, hsep_frag, hinner]
  have hC_at : '@' ∉ sepc :: inner.data := by
    intro hm
    rcases List.mem_cons.mp hm with h | h
    · exact hsep_at h.symm
    · exact hinner_at h
  have h1 : ("SRS1" : String).data = ['S', 'R', 'S', '1'] := rfl
  have h2 : (sep : String).data = ['='] := rfl
  have haddr : ("SRS1" ++ String.mk [f] ++ tag1 ++ sep ++ host1 ++ sep ++
      String.mk [sepc] ++ inner ++ "@" ++ s.domain) =
      String.mk (('S' :: 'R' :: 'S' :: '1' :: f ::
        (tag1.data ++ '=' :: (host1.data ++ '=' :: (sepc :: inner.data))))
        ++ '@' :: s.domain.data) := by
    apply String.ext
    simp [String.data_append, data_mk, h1, h2]
  rw [haddr]
  unfold SRS.Reverse
  rw [parseEmail_ok
    (srs_local_scan (by decide) (by decide) hf (srs_tail2_scan (benignSeg_scan htag1) hhost1 hC))
    hdom
    (srs_local_no_at (by decide) hf
      (srs_tail2_no_at (benignSeg_not_mem_at htag1) hhost1 hC_at))]
  have hlenL : ¬ (String.mk ('S' :: 'R' :: 'S' :: '1' :: f ::
      (tag1.data ++ '=' :: (host1.data ++ '=' :: (sepc :: inner.data))))).length < 5 := by
    simp [mk_length]
  have hup : upperStr (strTake (String.mk ('S' :: 'R' :: 'S' :: '1' :: f ::
      (tag1.data ++ '=' :: (host1.data ++ '=' :: (sepc :: inner.data))))) 5) =
      String.mk ['S', 'R', 'S', '1', f] := by
    have hfu : f.toUpper = f := by rcases hf with rfl | rfl | rfl <;> rfl
    simp [strTake, upperStr, data_mk, List.take_succ_cons, hfu]
  have hnot0 : ¬ (String.mk ['S', 'R', 'S', '1', f] = "SRS0=" ∨
      String.mk ['S', 'R', 'S', '1', f] = "SRS0+" ∨
      String.mk ['S', 'R', 'S', '1', f] = "SRS0-") := by
    rcases hf with rfl | rfl | rfl <;> decide
  have hyes1 : String.mk ['S', 'R', 'S', '1', f] = "SRS1=" ∨
      String.mk ['S', 'R', 'S', '1', f] = "SRS1+" ∨
      String.mk ['S', 'R', 'S', '1', f] = "SRS1-" := by
    rcases hf with rfl | rfl | rfl
    · exact Or.inl rfl
    · exact Or.inr (Or.inl rfl)
    · exact Or.inr (Or.inr rfl)
  obtain ⟨r, hps⟩ := parseSRS1_form2 (s.setDefaults) f tag1 host1 inner sepc hsepc
    htag1ne htag1head (benignSeg_not_mem_eq htag1) hhost1 hhost1head hlen
  obtain ⟨r1, r2, r3, r4⟩ := r
  simp only [if_neg hlenL, hup, if_neg hnot0, if_pos hyes1, hps, SRS.setDefaults_hash]
  have hlocal : String.mk (sepc :: inner.data) = String.mk [sepc] ++ inner := rfl
  rw [hlocal]
  by_cases hcmp : lowerStr tag1 =
      lowerStr (s.hash (strBytes (lowerStr (host1 ++ (String.mk [sepc] ++ inner)))))
  · rw [if_neg (not_not_intro hcmp), if_pos hcmp]
  · rw [if_pos hcmp, if_neg hcmp]

theorem c7_reverse_form2_witness :
    SRS.Reverse srsExample ("SRS1" ++ String.mk ['='] ++ "AAAA" ++ sep ++ "domain.net" ++ sep ++
        String.mk ['='] ++ "8Zzm=IS=netmark.rs=milos" ++ "@" ++ srsExample.domain) =
      if lowerStr "AAAA" =
          lowerStr (srsExample.hash (strBytes (lowerStr
            ("domain.net" ++ (String.mk ['='] ++ "8Zzm=IS=netmark.rs=milos"))))) then
        .ok ("SRS0" ++ (String.mk ['='] ++ "8Zzm=IS=netmark.rs=milos") ++ "@" ++ "domain.net")
      else .error .hashInvalid :=
  c7_reverse_form2 srsExample '=' (Or.inl rfl) "AAAA" "domain.net" "8Zzm=IS=netmark.rs=milos"
    '=' (Or.inl rfl) (by decide) (by decide) (by decide) (by decide) (by decide) (by decide)
    (by decide) (by decide)
